import Mathlib

/-
Verification development for the VLIW470 scheduler.

The definitions below are a shallow embedding of the Python sources
(src/risc_ds.py, src/vliw_ds.py, src/register_renaming.py, src/scheduler.py).
Python's fallible operations (list indexing, dict lookup, `assert`, `int()`)
are modelled in the `Option` monad: `none` means the Python code raises.
Unbounded `while` loops are modelled with an explicit fuel that is provably
large enough to cover every terminating Python run (rationale at each site);
running out of fuel coincides with the Python loop never terminating.
-/

set_option maxRecDepth 8000

/- ### Python-semantics helpers -/

/-- Python `str.find`: index of the first occurrence of the character, `-1` if absent. -/
def pyFindChar (s : List Char) (c : Char) : Int :=
  match s.findIdx? (fun d => d == c) with
  | some i => (i : Int)
  | none => -1

/-- Python slice endpoint normalisation: a negative index counts from the end,
and the result is clamped into `[0, n]`. -/
def pySliceIdx (n : Nat) (i : Int) : Nat :=
  if i < 0 then Int.toNat ((n : Int) + i) else min (Int.toNat i) n

/-- Python `l[a:b]`. -/
def pySlice {α : Type} (l : List α) (a b : Int) : List α :=
  let st := pySliceIdx l.length a
  let en := pySliceIdx l.length b
  (l.drop st).take (en - st)

/-- Python `l[i]` for an `int` index: a negative index wraps once from the end;
out of range raises (`none`). -/
def pyListGet {α : Type} (l : List α) (i : Int) : Option α :=
  if i < 0 then
    let j := (l.length : Int) + i
    if j < 0 then none else l.get? j.toNat
  else l.get? i.toNat

/-- Python `str.replace(old, new)` for a single-character pattern (the sources
only replace `","` by `" "` and `"x"` by `""`): every occurrence of the
character is replaced by the given string. -/
def pyReplaceChar (s : String) (old : Char) (new : List Char) : String :=
  String.mk (s.toList.foldr (fun c acc => if c = old then new ++ acc else c :: acc) [])

/-- Helper for `pySplit`: accumulate the current word (reversed) while walking. -/
def pySplitAux : List Char → List Char → List String
  | [], acc => if acc.isEmpty then [] else [String.mk acc.reverse]
  | c :: rest, acc =>
    if c = ' ' then
      if acc.isEmpty then pySplitAux rest []
      else String.mk acc.reverse :: pySplitAux rest []
    else pySplitAux rest (c :: acc)

/-- Python `str.split()` with no argument: split on whitespace runs, discarding
empty pieces (the repository's inputs only contain spaces). -/
def pySplit (s : String) : List String :=
  pySplitAux s.toList []

/-- Python `int(s)` on a token: an optional sign followed by at least one
decimal digit (the tokens of this repository never carry whitespace or
underscores); anything else raises (`none`). -/
def pyToInt (s : String) : Option Int :=
  let digits (l : List Char) : Option Nat :=
    if l.isEmpty ∨ ¬ l.all Char.isDigit then none
    else some (l.foldl (fun n c => n * 10 + (c.toNat - '0'.toNat)) 0)
  match s.toList with
  | '-' :: rest => (digits rest).map (fun n => -(n : Int))
  | '+' :: rest => (digits rest).map (fun n => (n : Int))
  | l => (digits l).map (fun n => (n : Int))

/-- Python `range(a, b, -1)`: the list `a, a-1, …, b+1` (empty when `a ≤ b`). -/
def pyRangeDown (a b : Int) : List Int :=
  (List.range (Int.toNat (a - b))).map (fun k => a - (k : Int))

/- ### risc_ds.py: data model -/

/-- risc_ds.RegisterDependency. The parser stores `reg_tag` as the *textual*
register tag: the Python code builds `RegisterDependency(i)` from the split
tokens and never converts them to `int` (only `dest_register` is converted). -/
structure RegisterDependency where
  reg_tag : String
  producers_idx : List Nat
  is_local : Bool
  is_interloop : Bool
  is_loop_invariant : Bool
  is_post_loop : Bool
deriving DecidableEq, Repr

/-- A freshly parsed dependency: `RegisterDependency.__init__`. -/
def RegisterDependency.mk0 (tag : String) : RegisterDependency :=
  ⟨tag, [], false, false, false, false⟩

/-- risc_ds.RiscInstruction (the latency field is derived, see `latency`).
The renamer's per-instruction output `renamed_dest_register` starts unset, as
the spec's data model states; note that `RiscInstruction.__init__` never
actually creates the attribute, so in Python the renamer's very first read of
it raises `AttributeError` -- the field is modelled as the spec documents it
("a mutable field renamed destination (initially unset)") to make the
renaming logic analysable at all. -/
structure RiscInstruction where
  dest_register : Option Int
  register_dependencies : List RegisterDependency
  is_alu : Bool
  is_mul : Bool
  is_mem : Bool
  string_representation : String
  renamed_dest_register : Option Int := none
deriving DecidableEq, Repr

/-- `self.latency = 3 if self.is_mul else 1`. -/
def RiscInstruction.latency (i : RiscInstruction) : Nat :=
  if i.is_mul then 3 else 1

/-- risc_ds.RiscProgram: instruction list plus the two block cut points. -/
structure RiscProgram where
  program : List RiscInstruction
  BB1_start : Nat
  BB2_start : Nat
deriving DecidableEq, Repr

/- ### risc_ds.py: parser -/

/-- One iteration of `RiscProgram._parse_instruction_list`. -/
def parse_one_instruction (instruction : String) : Option RiscInstruction := do
  let content := pySplit (pyReplaceChar (pyReplaceChar instruction ',' [' ']) 'x' [])
  let content_with_x := pySplit (pyReplaceChar instruction ',' [' '])
  if 4 < content.length then none else
  let op ← content.get? 0
  let (dest_str, dep_tags, is_alu, is_mul, is_mem) ←
    if op = "add" ∨ op = "sub" then do
      let d ← content.get? 1
      pure (some d, content.drop 2, true, false, false)
    else if op = "addi" then do
      let d ← content.get? 1
      pure (some d, (content.drop 2).take 1, true, false, false)
    else if op = "mulu" then do
      let d ← content.get? 1
      pure (some d, content.drop 2, false, true, false)
    else if op = "ld" ∨ op = "st" then do
      let a ← content.get? 2
      let addr := String.mk
        (pySlice a.toList (pyFindChar a.toList '(' + 1) (pyFindChar a.toList ')'))
      if op = "ld" then
        pure (some addr, ([] : List String), false, false, true)
      else
        pure (none, [addr], false, false, true)
    else if op = "mov" then do
      let d ← content.get? 1
      let c0 ← d.toList.get? 0
      if c0 = 'p' then none else
      if d = "LC" ∨ d = "EC" then
        pure (some "-1", ([] : List String), true, false, false)
      else do
        let w ← content_with_x.get? 2
        if w.toList.count 'x' = 1 then do
          let dep ← content.get? 2
          pure (some d, [dep], true, false, false)
        else
          pure (some d, ([] : List String), true, false, false)
    else none
  let dest_register ←
    match dest_str with
    | none => pure (none : Option Int)
    | some s =>
      match pyToInt s with
      | some k => pure (some k)
      | none => none
  pure { dest_register := dest_register,
         register_dependencies := dep_tags.map RegisterDependency.mk0,
         is_alu := is_alu, is_mul := is_mul, is_mem := is_mem,
         string_representation := instruction }

/-- `RiscProgram._parse_instruction_list`. -/
def parse_instruction_list (instructions : List String) : Option (List RiscInstruction) :=
  instructions.mapM parse_one_instruction

/- ### risc_ds.py: dependency analysis -/

/-- The producer searches compare `self.program[j].dest_register` (an `int` or
`None`) with `dep.reg_tag` (a `str`).  In Python a `==` between an int or
`None` and a str is always `False`, so this comparison never succeeds. -/
def tag_eq (_ : Option Int) (_ : String) : Bool := false

/-- Scan `self.program[j]` for `j` in the given index list, returning the first
`j` whose `dest_register` compares equal to the tag (`some none` when the scan
finishes without a match, `none` when an index is out of range, which raises). -/
def scan_for_producer (prog : List RiscInstruction) (tag : String) :
    List Int → Option (Option Nat)
  | [] => some none
  | j :: rest => do
    let ins ← pyListGet prog j
    if tag_eq ins.dest_register tag then
      some (some j.toNat)
    else
      scan_for_producer prog tag rest

/-- `RiscProgram._find_local_dependency`. -/
def find_local_dependency (p : RiscProgram) (instr_idx : Nat)
    (dep : RegisterDependency) : Option (Option Nat) :=
  let stop_BB : Int :=
    if p.BB2_start ≤ instr_idx then (p.BB2_start : Int) - 1
    else if p.BB1_start ≤ instr_idx then (p.BB1_start : Int) - 1
    else -1
  scan_for_producer p.program dep.reg_tag (pyRangeDown ((instr_idx : Int) - 1) stop_BB)

/-- `RiscProgram._find_interloop_dependency` (the risc_ds.py version: BB0 is
searched only when a producer was found in the BB1 scan). -/
def find_interloop_dependency (p : RiscProgram) (instr_idx : Nat)
    (dep : RegisterDependency) : Option (Option (List Nat)) := do
  let first ← scan_for_producer p.program dep.reg_tag
    (pyRangeDown ((p.BB2_start : Int) - 1) (instr_idx : Int))
  match first with
  | none => some none
  | some j1 => do
    let second ← scan_for_producer p.program dep.reg_tag
      (pyRangeDown ((p.BB1_start : Int) - 1) (-1))
    match second with
    | none => some (some [j1])
    | some j0 => some (some [j1, j0])

/-- `RiscProgram._find_loop_invariant_dependency`. -/
def find_loop_invariant_dependency (p : RiscProgram)
    (dep : RegisterDependency) : Option (Option Nat) :=
  scan_for_producer p.program dep.reg_tag (pyRangeDown ((p.BB1_start : Int) - 1) (-1))

/-- `RiscProgram._find_post_loop_dependency`. -/
def find_post_loop_dependency (p : RiscProgram)
    (dep : RegisterDependency) : Option (Option Nat) :=
  scan_for_producer p.program dep.reg_tag
    (pyRangeDown ((p.BB2_start : Int) - 1) ((p.BB1_start : Int) - 1))

/-- `RegisterDependency.set_dep_type` with a single producer index (or `None`).
Returns the unchanged dependency when the producer is `None`; otherwise sets
the flag for the kind, appends the index and checks the class's asserts. -/
def set_dep_type (dep : RegisterDependency) (dep_type : String)
    (producer_idx : Option Nat) : Option RegisterDependency :=
  match producer_idx with
  | none => some dep
  | some j =>
    let dep' : RegisterDependency :=
      { dep with
        is_local := dep.is_local ∨ dep_type = "local",
        is_interloop := dep.is_interloop ∨ dep_type = "interloop",
        is_loop_invariant := dep.is_loop_invariant ∨ dep_type = "loop_invariant",
        is_post_loop := dep.is_post_loop ∨ dep_type = "post_loop",
        producers_idx := dep.producers_idx ++ [j] }
    let flags : Nat :=
      (if dep'.is_local then 1 else 0) + (if dep'.is_interloop then 1 else 0) +
      (if dep'.is_loop_invariant then 1 else 0) + (if dep'.is_post_loop then 1 else 0)
    if flags ≠ 1 then none
    else if dep'.is_interloop then
      if 2 < dep'.producers_idx.length then none else some dep'
    else
      if dep'.producers_idx.length ≠ 1 then none else some dep'

/-- Analysis of one dependency of a BB0 consumer (`perform_dependency_analysis`,
first loop): only a local producer is looked for. -/
def analyze_dep_BB0 (p : RiscProgram) (idx : Nat) (dep : RegisterDependency) :
    Option RegisterDependency := do
  let prod ← find_local_dependency p idx dep
  set_dep_type dep "local" prod

/-- Analysis of one dependency of a BB1 consumer (second loop).  Note that the
Python code passes the `enumerate` index of the slice `program[BB1_start:BB2_start]`,
i.e. an index *relative* to the start of BB1, to the search helpers. -/
def analyze_dep_BB1 (p : RiscProgram) (rel_idx : Nat) (dep : RegisterDependency) :
    Option RegisterDependency := do
  let prod ← find_local_dependency p rel_idx dep
  match prod with
  | some j => set_dep_type dep "local" (some j)
  | none => do
    let il ← find_interloop_dependency p rel_idx dep
    match il with
    | some _l =>
      -- Python appends the whole producer list `_l` as a single element of
      -- producers_idx, which has no well-typed counterpart here.  The branch
      -- is unreachable because the tag comparison never succeeds (see
      -- `find_interloop_dependency_never_finds`), so it is mapped to a crash.
      none
    | none => do
      let li ← find_loop_invariant_dependency p dep
      match li with
      | some j => set_dep_type dep "loop_invariant" (some j)
      | none => none   -- `assert prod_idx is not None` fails

/-- Analysis of one dependency of a BB2 consumer (third loop); again the index
passed to `_find_local_dependency` is relative to the start of BB2. -/
def analyze_dep_BB2 (p : RiscProgram) (rel_idx : Nat) (dep : RegisterDependency) :
    Option RegisterDependency := do
  let prod ← find_local_dependency p rel_idx dep
  match prod with
  | some j => set_dep_type dep "local" (some j)
  | none => do
    let pl ← find_post_loop_dependency p dep
    match pl with
    | some j => set_dep_type dep "post_loop" (some j)
    | none => do
      let li ← find_loop_invariant_dependency p dep
      match li with
      | some j => set_dep_type dep "loop_invariant" (some j)
      | none => none   -- `assert prod_idx is not None` fails

/-- Analyze all dependencies of the instruction at absolute index `idx`. -/
def analyze_instruction (p : RiscProgram) (idx : Nat) (ins : RiscInstruction) :
    Option RiscInstruction := do
  let deps ← ins.register_dependencies.mapM (fun dep =>
    if idx < p.BB1_start then analyze_dep_BB0 p idx dep
    else if idx < p.BB2_start then analyze_dep_BB1 p (idx - p.BB1_start) dep
    else analyze_dep_BB2 p (idx - p.BB2_start) dep)
  pure { ins with register_dependencies := deps }

/-- Helper: monadic map with the absolute instruction index. -/
def analyze_from (p : RiscProgram) : Nat → List RiscInstruction →
    Option (List RiscInstruction)
  | _, [] => some []
  | idx, ins :: rest => do
    let ins' ← analyze_instruction p idx ins
    let rest' ← analyze_from p (idx + 1) rest
    pure (ins' :: rest')

/-- `RiscProgram.perform_dependency_analysis`. -/
def perform_dependency_analysis (p : RiscProgram) : Option RiscProgram := do
  let prog ← analyze_from p 0 p.program
  pure { p with program := prog }

/-- Python `instr.startswith("loop")`. -/
def isLoopInstr (s : String) : Bool := s.toList.take 4 = "loop".toList

/-- `RiscProgram.load_from_list`. -/
def load_from_list (instructions : List String) : Option RiscProgram := do
  if 1 < (instructions.filter isLoopInstr).length then none else
  if (instructions.filter isLoopInstr).isEmpty then do
    let BB0 ← parse_instruction_list instructions
    perform_dependency_analysis ⟨BB0, BB0.length, BB0.length⟩
  else do
    let p ← instructions.findIdx? isLoopInstr
    let instr ← instructions.get? p
    let tTok ← (pySplit instr).getLast?
    let t ← pyToInt tTok
    let BB0 ← parse_instruction_list (pySlice instructions 0 t)
    let BB1 ← parse_instruction_list (pySlice instructions t (p : Int))
    let BB2 ← parse_instruction_list (pySlice instructions ((p : Int) + 1) (instructions.length : Int))
    perform_dependency_analysis ⟨BB0 ++ BB1 ++ BB2, BB0.length, BB0.length + BB1.length⟩

/-- The interloop search can never report a producer: the tag comparison is
between an int (or `None`) and a str, hence always `False` in Python. -/
theorem find_interloop_dependency_never_finds (p : RiscProgram) (i : Nat)
    (dep : RegisterDependency) (r : Option (List Nat)) :
    find_interloop_dependency p i dep = some r → r = none := by
  unfold find_interloop_dependency
  have hscan : ∀ (l : List Int) (s : Option Nat),
      scan_for_producer p.program dep.reg_tag l = some s → s = none := by
    intro l
    induction l with
    | nil => intro s hs; simpa [scan_for_producer] using hs.symm
    | cons j rest ih =>
      intro s hs
      simp only [scan_for_producer, tag_eq, Bool.false_eq_true, if_false,
        Option.bind_eq_bind, Option.bind_eq_some] at hs
      obtain ⟨ins, _, hrest⟩ := hs
      exact ih _ hrest
  intro h
  simp only [Option.bind_eq_bind, Option.bind_eq_some] at h
  obtain ⟨first, hfirst, hrest⟩ := h
  have := hscan _ _ hfirst
  subst this
  simpa using hrest.symm

/- ### Parser lemmas -/

/-- Parsing preserves the number of instructions. -/
theorem parse_instruction_list_length (l : List String) (r : List RiscInstruction)
    (h : parse_instruction_list l = some r) : r.length = l.length := by
  induction l generalizing r with
  | nil =>
    simp only [parse_instruction_list, List.mapM_nil, Option.pure_def,
      Option.some.injEq] at h
    simp [← h]
  | cons a rest ih =>
    simp only [parse_instruction_list, List.mapM_cons, Option.pure_def, Option.bind_eq_bind,
      Option.bind_eq_some, Option.some.injEq] at h
    obtain ⟨i, _, r', hr', hcons⟩ := h
    subst hcons
    simpa using ih r' hr'

/-- `analyze_from` preserves the number of instructions. -/
theorem analyze_from_length (p : RiscProgram) (i : Nat) (l : List RiscInstruction)
    (r : List RiscInstruction) (h : analyze_from p i l = some r) : r.length = l.length := by
  induction l generalizing i r with
  | nil =>
    simp only [analyze_from, Option.some.injEq] at h
    simp [← h]
  | cons a rest ih =>
    simp only [analyze_from, Option.pure_def, Option.bind_eq_bind, Option.bind_eq_some,
      Option.some.injEq] at h
    obtain ⟨i', _, r', hr', hcons⟩ := h
    subst hcons
    simpa using ih (i + 1) r' hr'

/-- Dependency analysis preserves the block boundaries and the program length. -/
theorem perform_dependency_analysis_shape (p q : RiscProgram)
    (h : perform_dependency_analysis p = some q) :
    q.BB1_start = p.BB1_start ∧ q.BB2_start = p.BB2_start ∧
    q.program.length = p.program.length := by
  simp only [perform_dependency_analysis, Option.pure_def, Option.bind_eq_bind,
    Option.bind_eq_some, Option.some.injEq] at h
  obtain ⟨prog, hprog, hq⟩ := h
  subst hq
  exact ⟨rfl, rfl, analyze_from_length p 0 p.program prog hprog⟩

/-- Slice endpoint normalisation at a natural number. -/
theorem pySliceIdx_natCast (n t : Nat) : pySliceIdx n (t : Int) = min t n := by
  unfold pySliceIdx
  split <;> omega

/-- Python `l[0:t]` for a natural endpoint is `take`. -/
theorem pySlice_zero (l : List String) (t : Nat) : pySlice l 0 (t : Int) = l.take t := by
  have h0 : pySliceIdx l.length 0 = 0 := by unfold pySliceIdx; simp
  simp only [pySlice, pySliceIdx_natCast, h0, List.drop_zero, Nat.sub_zero]
  exact List.take_eq_take.mpr (by omega)

/-- Python `l[t:p]` for naturals `t ≤ p ≤ len`. -/
theorem pySlice_mid (l : List String) (t p : Nat) (ht : t ≤ p) (hp : p ≤ l.length) :
    pySlice l (t : Int) (p : Int) = (l.drop t).take (p - t) := by
  simp only [pySlice, pySliceIdx_natCast]
  rw [min_eq_left (le_trans ht hp), min_eq_left hp]

/-- Python `l[k:]` (the end index being the length) is `drop`. -/
theorem pySlice_suffix (l : List String) (k : Nat) :
    pySlice l (k : Int) (l.length : Int) = l.drop k := by
  simp only [pySlice, pySliceIdx_natCast, min_self]
  rcases le_or_lt k l.length with hk | hk
  · rw [min_eq_left hk, ← List.length_drop]
    exact List.take_length _
  · rw [min_eq_right hk.le, List.drop_length,
      List.drop_eq_nil_of_le hk.le]
    simp

/- ### Claim C7 -/

/-- C7: the claim states that `ld rd, imm(rs1)` decodes with destination `rd`
and operand dependency list `[base]`, and `st rs, imm(rs1)` with no destination
and list `[rs, base]`.  The code extracts the base register from between the
parentheses but then uses it as the *destination* of `ld` (with no
dependencies) and as the *only* dependency of `st` (dropping the data
register): `ld x3, 100(x2)` gets destination 2 and no dependencies, and
`st x1, 50(x4)` gets the single dependency tagged `4`. -/
theorem c7_ld_st_decoding :
    parse_one_instruction "ld x3, 100(x2)" =
      some { dest_register := some 2, register_dependencies := [],
             is_alu := false, is_mul := false, is_mem := true,
             string_representation := "ld x3, 100(x2)" } ∧
    parse_one_instruction "st x1, 50(x4)" =
      some { dest_register := none,
             register_dependencies := [RegisterDependency.mk0 "4"],
             is_alu := false, is_mul := false, is_mem := true,
             string_representation := "st x1, 50(x4)" } := by
  decide

/- ### Claim C3 -/

/-- C3: the claim states that every operand of a BB1 consumer is classified by
trying local, then interloop, then loop-invariant.  On the code no producer
search can ever succeed (the searches compare the `int` field
`dest_register` with the `str` field `reg_tag`, see `tag_eq`), so the
loop-invariant fallback's `assert prod_idx is not None` fails and the whole
load crashes on any program whose BB1 reads a register: the instructions
parse, but `load_from_list` produces nothing. -/
theorem c3_bb1_classification_crashes :
    (parse_instruction_list ["mov x1, 0", "addi x1, x1, 1"]).isSome = true ∧
    load_from_list ["mov x1, 0", "addi x1, x1, 1", "loop 1"] = none := by
  decide

/- ### Claim C8 -/

/-- C8: for an input with at most one loop operation, if the loop sits at
position `p` with target `t ≤ p` then the parsed program is the dependency
analysis of BB0 = positions `[0, t)`, BB1 = `[t, p)` and BB2 = `[p+1, n)`,
with `BB1_start = t`, `BB2_start = p`, and the loop instruction itself not
stored (the program is one shorter than the input); with no loop present, BB0
covers the whole input and BB1 and BB2 are empty. -/
theorem c8_block_partition (instructions : List String) (prog : RiscProgram)
    (h : load_from_list instructions = some prog) :
    (∀ p instr tTok (t : Nat),
        instructions.findIdx? isLoopInstr = some p →
        instructions.get? p = some instr →
        isLoopInstr instr = true →
        (pySplit instr).getLast? = some tTok →
        pyToInt tTok = some (t : Int) →
        t ≤ p →
        ∃ bb0 bb1 bb2,
          parse_instruction_list (instructions.take t) = some bb0 ∧
          parse_instruction_list ((instructions.drop t).take (p - t)) = some bb1 ∧
          parse_instruction_list (instructions.drop (p + 1)) = some bb2 ∧
          perform_dependency_analysis
            ⟨bb0 ++ bb1 ++ bb2, bb0.length, bb0.length + bb1.length⟩ = some prog ∧
          prog.BB1_start = t ∧ prog.BB2_start = p ∧
          prog.program.length + 1 = instructions.length) ∧
    ((instructions.filter isLoopInstr).isEmpty = true →
      ∃ bb0,
        parse_instruction_list instructions = some bb0 ∧
        perform_dependency_analysis ⟨bb0, bb0.length, bb0.length⟩ = some prog ∧
        prog.BB1_start = instructions.length ∧
        prog.BB2_start = instructions.length ∧
        prog.program.length = instructions.length) := by
  constructor
  · intro p instr tTok t hfind hget hloop htok hint htp
    have hplen : p < instructions.length := (List.get?_eq_some.mp hget).1
    have hmem : instr ∈ instructions := List.get?_mem hget
    have hne : (instructions.filter isLoopInstr).isEmpty = false := by
      have hmem2 : instr ∈ instructions.filter isLoopInstr :=
        List.mem_filter.mpr ⟨hmem, hloop⟩
      cases hfe : (instructions.filter isLoopInstr).isEmpty
      · rfl
      · rw [List.isEmpty_iff] at hfe
        rw [hfe] at hmem2
        exact absurd hmem2 (List.not_mem_nil instr)
    unfold load_from_list at h
    by_cases hgt : 1 < (instructions.filter isLoopInstr).length
    · rw [if_pos hgt] at h
      exact absurd h (by simp)
    rw [if_neg hgt, hne] at h
    simp only [Bool.false_eq_true, if_false, Option.bind_eq_bind,
      Option.bind_eq_some] at h
    obtain ⟨p', hp', instr', hinstr', tTok', htok', t', hint', bb0, hbb0,
      bb1, hbb1, bb2, hbb2, hana⟩ := h
    rw [hfind] at hp'
    injection hp' with hp'
    subst hp'
    rw [hget] at hinstr'
    injection hinstr' with hinstr'
    subst hinstr'
    rw [htok] at htok'
    injection htok' with htok'
    subst htok'
    rw [hint] at hint'
    injection hint' with hint'
    subst hint'
    rw [pySlice_zero] at hbb0
    rw [pySlice_mid _ _ _ htp hplen.le] at hbb1
    rw [show ((p : Int) + 1) = ((p + 1 : Nat) : Int) by push_cast; ring,
      pySlice_suffix] at hbb2
    have l0 : bb0.length = t := by
      rw [parse_instruction_list_length _ _ hbb0, List.length_take]
      omega
    have l1 : bb1.length = p - t := by
      rw [parse_instruction_list_length _ _ hbb1, List.length_take, List.length_drop]
      omega
    have l2 : bb2.length = instructions.length - (p + 1) := by
      rw [parse_instruction_list_length _ _ hbb2, List.length_drop]
    obtain ⟨s1, s2, slen⟩ := perform_dependency_analysis_shape _ _ hana
    refine ⟨bb0, bb1, bb2, hbb0, hbb1, hbb2, hana, ?_, ?_, ?_⟩
    · rw [s1]; simpa using l0
    · rw [s2]; simp; omega
    · rw [slen]; simp; omega
  · intro hempty
    unfold load_from_list at h
    have hlen0 : (instructions.filter isLoopInstr).length = 0 := by
      rw [List.isEmpty_iff] at hempty
      simp [hempty]
    rw [if_neg (by omega), hempty] at h
    simp only [if_true] at h
    simp only [Option.bind_eq_bind, Option.bind_eq_some] at h
    obtain ⟨bb0, hbb0, hana⟩ := h
    have l0 : bb0.length = instructions.length :=
      parse_instruction_list_length _ _ hbb0
    obtain ⟨s1, s2, slen⟩ := perform_dependency_analysis_shape _ _ hana
    exact ⟨bb0, hbb0, hana, by rw [s1, l0], by rw [s2, l0], by rw [slen, l0]⟩

/-- Witness for C8 at the concrete input
`["mov x1, 5", "mov x2, 6", "loop 1", "mov x3, 7"]` (loop at position 2 with
target 1). -/
theorem c8_block_partition_witness :
    ∃ prog, load_from_list ["mov x1, 5", "mov x2, 6", "loop 1", "mov x3, 7"] = some prog ∧
      ∃ bb0 bb1 bb2,
        parse_instruction_list (["mov x1, 5", "mov x2, 6", "loop 1", "mov x3, 7"].take 1) = some bb0 ∧
        parse_instruction_list ((["mov x1, 5", "mov x2, 6", "loop 1", "mov x3, 7"].drop 1).take (2 - 1)) = some bb1 ∧
        parse_instruction_list (["mov x1, 5", "mov x2, 6", "loop 1", "mov x3, 7"].drop (2 + 1)) = some bb2 ∧
        perform_dependency_analysis
          ⟨bb0 ++ bb1 ++ bb2, bb0.length, bb0.length + bb1.length⟩ = some prog ∧
        prog.BB1_start = 1 ∧ prog.BB2_start = 2 ∧
        prog.program.length + 1 = ["mov x1, 5", "mov x2, 6", "loop 1", "mov x3, 7"].length := by
  have h : (load_from_list ["mov x1, 5", "mov x2, 6", "loop 1", "mov x3, 7"]).isSome = true := by
    decide
  obtain ⟨prog, hprog⟩ := Option.isSome_iff_exists.mp h
  refine ⟨prog, hprog, ?_⟩
  exact (c8_block_partition _ prog hprog).1 2 "loop 1" "1" 1
    (by decide) (by decide) (by decide) (by decide) (by decide) (by decide)

/- ### vliw_ds.py: data model -/

/-- Python `l[i] = a` for an `int` index with Python's wrapping rule. -/
def pyListSet {α : Type} (l : List α) (i : Int) (a : α) : Option (List α) :=
  if i < 0 then
    let j := (l.length : Int) + i
    if j < 0 then none else
    if j.toNat < l.length then some (l.set j.toNat a) else none
  else
    if i.toNat < l.length then some (l.set i.toNat a) else none

/-- vliw_ds.VliwInstructionUnit (`risc_idx` is an int or `None`). -/
structure VliwInstructionUnit where
  dest_register : Option Int
  string_representation : String
  risc_idx : Option Int
deriving DecidableEq, Repr

/-- vliw_ds.VliwInstruction: one bundle with five optional slots. -/
structure VliwInstruction where
  alu0 : Option VliwInstructionUnit
  alu1 : Option VliwInstructionUnit
  mul : Option VliwInstructionUnit
  mem : Option VliwInstructionUnit
  branch : Option VliwInstructionUnit
deriving DecidableEq, Repr

/-- `VliwInstruction.__init__`: all five slots empty. -/
def VliwInstruction.empty : VliwInstruction := ⟨none, none, none, none, none⟩

/-- `VliwInstruction.get_available_bundle_slots` (note the Python `elif`
chain: a multiply whose slot is taken falls through to the memory test). -/
def get_available_bundle_slots (b : VliwInstruction)
    (instruction : RiscInstruction) : List String :=
  if instruction.is_alu then
    (if b.alu0 = none then ["alu0"] else []) ++ (if b.alu1 = none then ["alu1"] else [])
  else if instruction.is_mul ∧ b.mul = none then ["mul"]
  else if instruction.is_mem ∧ b.mem = none then ["mem"]
  else []

/-- `VliwInstruction.to_list`. -/
def VliwInstruction.to_list (b : VliwInstruction) : List String :=
  [b.alu0, b.alu1, b.mul, b.mem, b.branch].map (fun u =>
    match u with
    | some i => i.string_representation
    | none => "nop")

/-- `VliwInstruction.is_empty`: compares the dump against five nops (a slot
whose text is literally "nop" would also count, exactly as in Python). -/
def VliwInstruction.is_empty (b : VliwInstruction) : Bool :=
  b.to_list == ["nop", "nop", "nop", "nop", "nop"]

/-- vliw_ds.VliwProgram.  The dict `risc_pos_to_vliw_pos` is an association
list (insertion at the front, first match wins) and the reservation set
`unavailable_slots` a duplicate-free list. -/
structure VliwProgram where
  program : List VliwInstruction
  risc_pos_to_vliw_pos : List (Nat × Nat)
  unavailable_slots : List (Nat × String)
  no_stages : Nat
  ii : Nat
  start_loop : Nat
  end_loop : Nat
deriving DecidableEq, Repr

/-- `VliwProgram.__init__`. -/
def VliwProgram.empty : VliwProgram := ⟨[], [], [], 0, 0, 0, 0⟩

/-- Dict lookup `d[k]` (`none` = `KeyError`). -/
def dict_get (d : List (Nat × Nat)) (k : Nat) : Option Nat :=
  (d.find? (fun e => e.1 == k)).map (fun e => e.2)

/-- Dict store `d[k] = v`. -/
def dict_set (d : List (Nat × Nat)) (k v : Nat) : List (Nat × Nat) :=
  (k, v) :: d.eraseP (fun e => e.1 == k)

/-- Set insertion `s.add(e)`. -/
def rset_add (s : List (Nat × String)) (e : Nat × String) : List (Nat × String) :=
  if e ∈ s then s else e :: s

/-- The Python loop `while len(self.program) <= pos: self.program += [VliwInstruction()]`:
pad with empty bundles so that index `pos` exists. -/
def extend_to (prog : List VliwInstruction) (pos : Nat) : List VliwInstruction :=
  prog ++ List.replicate (pos + 1 - prog.length) VliwInstruction.empty

/-- The `match schedule_unit` block of `schedule_risc_instruction`: store the
unit in the named slot; the slot must be free (`assert ... is None`). -/
def set_slot (b : VliwInstruction) (slot : String) (u : VliwInstructionUnit) :
    Option VliwInstruction :=
  if slot = "alu0" then
    match b.alu0 with | none => some { b with alu0 := some u } | some _ => none
  else if slot = "alu1" then
    match b.alu1 with | none => some { b with alu1 := some u } | some _ => none
  else if slot = "mem" then
    match b.mem with | none => some { b with mem := some u } | some _ => none
  else if slot = "mul" then
    match b.mul with | none => some { b with mul := some u } | some _ => none
  else none

/- ### vliw_ds.py: scheduling -/

/-- A dependency whose kind has been set (the first `if` in the dependency loop
of `schedule_risc_instruction`). -/
def dep_is_set (dep : RegisterDependency) : Bool :=
  dep.is_local || dep.is_interloop || dep.is_loop_invariant || dep.is_post_loop

/-- The dependency loop of `schedule_risc_instruction`: raise the earliest
start to `pos[last producer] + latency(last producer)` for every set
dependency; an unset dependency must have no producers. -/
def dep_start_fold (risc : RiscProgram) (s : VliwProgram) :
    List RegisterDependency → Nat → Option Nat
  | [], acc => some acc
  | dep :: rest, acc =>
    if dep_is_set dep then do
      let p ← dep.producers_idx.getLast?
      let v ← dict_get s.risc_pos_to_vliw_pos p
      let ins ← risc.program.get? p
      dep_start_fold risc s rest (max acc (v + ins.latency))
    else
      if dep.producers_idx = [] then dep_start_fold risc s rest acc
      else none

/-- The `while True` slot scan of `schedule_risc_instruction`: starting from a
cycle, find the first bundle with an allowed slot (in modulo mode also not
reserved).  Bundles past the end of the list are empty.  The fuel passed by
the caller covers every position up to one full modulo period past
`max(start, len)`; beyond that the free-slot pattern repeats with period `ii`,
so exhausting the fuel coincides with the Python loop running forever. -/
def scan_slot (s : VliwProgram) (instruction : RiscInstruction) (loop_start : Nat)
    (ii : Option Nat) : Nat → Nat → Option (Nat × String)
  | _, 0 => none
  | pos, fuel + 1 =>
    let bundle := s.program.getD pos VliwInstruction.empty
    let possible := get_available_bundle_slots bundle instruction
    match ii with
    | some k =>
      if k = 0 then none else
      match possible.filter (fun u => ¬ ((pos - loop_start) % k, u) ∈ s.unavailable_slots) with
      | [] => scan_slot s instruction loop_start ii (pos + 1) fuel
      | u :: _ => some (pos, u)
    | none =>
      match possible with
      | [] => scan_slot s instruction loop_start ii (pos + 1) fuel
      | u :: _ => some (pos, u)

/-- `VliwProgram.schedule_risc_instruction`. -/
def schedule_risc_instruction (risc : RiscProgram) (s : VliwProgram)
    (instruction : RiscInstruction) (instr_idx : Nat)
    (schedule_start_pos : Nat) (ii : Option Nat) : Option VliwProgram := do
  let loop_start := schedule_start_pos
  let start ← dep_start_fold risc s instruction.register_dependencies schedule_start_pos
  let fuel := (max start s.program.length - start) +
    (match ii with | some k => k | none => 0) + 1
  let (pos, unit_name) ← scan_slot s instruction loop_start ii start fuel
  let prog := extend_to s.program pos
  let vunit : VliwInstructionUnit :=
    ⟨instruction.dest_register, instruction.string_representation, some (instr_idx : Int)⟩
  let bundle ← prog.get? pos
  let bundle' ← set_slot bundle unit_name vunit
  let unav := match ii with
    | some k => rset_add s.unavailable_slots ((pos - loop_start) % k, unit_name)
    | none => s.unavailable_slots
  pure { s with
    program := prog.set pos bundle',
    risc_pos_to_vliw_pos := dict_set s.risc_pos_to_vliw_pos instr_idx pos,
    unavailable_slots := unav }

/-- Structural worker for the `for idx in range(start, stop)` loops: the
first argument counts the remaining iterations. -/
def schedule_instruction_go (risc : RiscProgram) (schedule_start_pos : Nat)
    (ii : Option Nat) : Nat → Nat → VliwProgram → Option VliwProgram
  | 0, _, s => some s
  | n + 1, start, s => do
    let ins ← risc.program.get? start
    let s' ← schedule_risc_instruction risc s ins start schedule_start_pos ii
    schedule_instruction_go risc schedule_start_pos ii n (start + 1) s'

/-- The `for idx in range(start, stop)` loops of `schedule_loopless_instructions`
and `schedule_loop_pip_instructions`. -/
def schedule_instruction_range (risc : RiscProgram) (schedule_start_pos : Nat)
    (ii : Option Nat) (start stop : Nat) (s : VliwProgram) : Option VliwProgram :=
  schedule_instruction_go risc schedule_start_pos ii (stop - start) start s

/-- `VliwProgram.schedule_loopless_instructions`. -/
def schedule_loopless_instructions (risc : RiscProgram) (s : VliwProgram)
    (BB : String) (ii : Option Nat) : Option VliwProgram :=
  if BB = "BB0" then
    schedule_instruction_range risc 0 ii 0 risc.BB1_start s
  else if BB = "BB1" then
    schedule_instruction_range risc s.program.length ii risc.BB1_start risc.BB2_start s
  else if BB = "BB2" then
    schedule_instruction_range risc s.program.length ii risc.BB2_start risc.program.length s
  else none

/-- The dependency loop of `VliwProgram._compute_min_ii_for_interloop_dep`. -/
def compute_min_ii_fold (risc : RiscProgram) (s : VliwProgram) (instr_idx : Nat) :
    List RegisterDependency → Int → Option Int
  | [], acc => some acc
  | dep :: rest, acc =>
    if dep.is_interloop then
      let ordered : Bool :=
        match dep.producers_idx with
        | [a, b] => decide (b < a)
        | _ => true
      if ¬ ordered then none else do
      let dep_idx ← dep.producers_idx.get? 0
      let dep_vliw_pos ← dict_get s.risc_pos_to_vliw_pos dep_idx
      let ins ← risc.program.get? dep_idx
      let instr_vliw_pos ← dict_get s.risc_pos_to_vliw_pos instr_idx
      compute_min_ii_fold risc s instr_idx rest
        (max acc ((dep_vliw_pos : Int) + (ins.latency : Int) - (instr_vliw_pos : Int)))
    else compute_min_ii_fold risc s instr_idx rest acc

/-- `VliwProgram._compute_min_ii_for_interloop_dep`. -/
def compute_min_ii_for_interloop_dep (risc : RiscProgram) (s : VliwProgram)
    (instr_idx : Nat) : Option Int := do
  let instruction ← risc.program.get? instr_idx
  compute_min_ii_fold risc s instr_idx instruction.register_dependencies 1

/-- Structural worker for the nonempty-bundle scan: the fuel is the number of
bundles left; exhausting it is the `IndexError` of walking past the end. -/
def find_nonempty_go (prog : List VliwInstruction) : Nat → Nat → Option Nat
  | 0, _ => none
  | n + 1, i => do
    let b ← prog.get? i
    if b.is_empty then find_nonempty_go prog n (i + 1) else some i

/-- The `while self.program[loop_tag].is_empty(): loop_tag += 1` scan; walking
past the end of the program raises `IndexError`. -/
def find_nonempty_from (prog : List VliwInstruction) (i : Nat) : Option Nat :=
  find_nonempty_go prog (prog.length - i) i

/-- `self.program[-1].branch = VliwInstructionUnit(None, text, None)`. -/
def set_branch_on_last (prog : List VliwInstruction) (text : String) :
    Option (List VliwInstruction) :=
  match prog.getLast? with
  | none => none
  | some last =>
    some (prog.set (prog.length - 1) { last with branch := some ⟨none, text, none⟩ })

/-- `VliwProgram.schedule_loop_instructions_without_interloop_dep`. -/
def schedule_loop_instructions_without_interloop_dep (risc : RiscProgram)
    (s : VliwProgram) : Option VliwProgram := do
  let loop_tag := s.program.length
  let s ← schedule_loopless_instructions risc s "BB1" none
  let loop_tag ← find_nonempty_from s.program loop_tag
  let prog ← set_branch_on_last s.program ("loop " ++ toString loop_tag)
  pure { s with program := prog, start_loop := loop_tag, end_loop := prog.length }

/-- Structural worker for the interloop maximum fold. -/
def fix_interloop_go (risc : RiscProgram) (s : VliwProgram) :
    Nat → Nat → Int → Option Int
  | 0, _, acc => some acc
  | n + 1, start, acc => do
    let m ← compute_min_ii_for_interloop_dep risc s start
    fix_interloop_go risc s n (start + 1) (max acc m)

/-- The `for idx in range(BB1_start, BB2_start)` fold of
`fix_interloop_dependencies`. -/
def fix_interloop_max (risc : RiscProgram) (s : VliwProgram)
    (start stop : Nat) (acc : Int) : Option Int :=
  fix_interloop_go risc s (stop - start) start acc

/-- One iteration of the widening `while` of `fix_interloop_dependencies`:
insert an empty bundle at `end_loop`, move the branch one bundle down, and
advance `end_loop`. -/
def widen_step (s : VliwProgram) : Option VliwProgram := do
  let prog := s.program.take s.end_loop ++ [VliwInstruction.empty] ++ s.program.drop s.end_loop
  let bcur ← pyListGet prog (s.end_loop : Int)
  let bprev ← pyListGet prog ((s.end_loop : Int) - 1)
  let prog ← pyListSet prog (s.end_loop : Int) { bcur with branch := bprev.branch }
  let bprev2 ← pyListGet prog ((s.end_loop : Int) - 1)
  let prog ← pyListSet prog ((s.end_loop : Int) - 1) { bprev2 with branch := none }
  pure { s with program := prog, end_loop := s.end_loop + 1 }

/-- The widening `while self.end_loop < self.start_loop + ii` loop; each step
advances `end_loop` by one, so the caller's fuel makes this exactly the Python
loop. -/
def widen_iter (ii : Int) : Nat → VliwProgram → Option VliwProgram
  | 0, s => some s
  | fuel + 1, s =>
    if (s.end_loop : Int) < (s.start_loop : Int) + ii then do
      let s' ← widen_step s
      widen_iter ii fuel s'
    else some s

/-- `VliwProgram.fix_interloop_dependencies`. -/
def fix_interloop_dependencies (risc : RiscProgram) (s : VliwProgram) :
    Option VliwProgram := do
  let ii0 : Int := (s.end_loop : Int) - (s.start_loop : Int)
  let ii ← fix_interloop_max risc s risc.BB1_start risc.BB2_start ii0
  widen_iter ii ((s.start_loop : Int) + ii - (s.end_loop : Int)).toNat s

/-- Structural worker for the violation scan. -/
def pip_check_go (risc : RiscProgram) (s : VliwProgram) (ii : Nat) :
    Nat → Nat → Option Bool
  | 0, _ => some false
  | n + 1, start => do
    let m ← compute_min_ii_for_interloop_dep risc s start
    if (ii : Int) < m then some true
    else pip_check_go risc s ii n (start + 1)

/-- The violation scan of `schedule_loop_pip_instructions`: the first BB1
instruction whose required II exceeds `ii` triggers the rollback. -/
def pip_check (risc : RiscProgram) (s : VliwProgram) (ii : Nat)
    (start stop : Nat) : Option Bool :=
  pip_check_go risc s ii (stop - start) start

/-- `VliwProgram.schedule_loop_pip_instructions`: returns `(false, restored)`
on an II rejection and `(true, scheduled)` on success. -/
def schedule_loop_pip_instructions (risc : RiscProgram) (s : VliwProgram)
    (ii : Nat) : Option (Bool × VliwProgram) := do
  let loop_tag := s.program.length
  let schedule_start_pos := s.program.length
  let s' ← schedule_instruction_range risc schedule_start_pos (some ii)
    risc.BB1_start risc.BB2_start s
  let viol ← pip_check risc s' ii risc.BB1_start risc.BB2_start
  if viol then
    pure (false, { s' with
      unavailable_slots := [],
      program := s'.program.take schedule_start_pos,
      risc_pos_to_vliw_pos :=
        s'.risc_pos_to_vliw_pos.filter (fun e => e.2 < schedule_start_pos) })
  else do
    let loop_tag ← find_nonempty_from s'.program loop_tag
    if ii = 0 then none   -- `loop_pip_size % ii` raises on a zero II
    else do
      let loop_pip_size := s'.program.length - loop_tag
      let pad := if loop_pip_size % ii = 0 then 0 else ii - loop_pip_size % ii
      let prog := s'.program ++ List.replicate pad VliwInstruction.empty
      let loop_pip_size := prog.length - loop_tag
      let prog ← set_branch_on_last prog ("loop.pip " ++ toString loop_tag)
      pure (true, { s' with
        program := prog,
        no_stages := loop_pip_size / ii, ii := ii,
        start_loop := loop_tag, end_loop := prog.length })

/-- `VliwProgram.get_stage` (asserts `start_loop ≤ idx` and
`result < no_stages`; a zero II raises `ZeroDivisionError`). -/
def get_stage (s : VliwProgram) (vliw_instr_idx : Nat) : Option Nat :=
  if vliw_instr_idx < s.start_loop then none
  else if s.ii = 0 then none
  else
    let result := (vliw_instr_idx - s.start_loop) / s.ii
    if result < s.no_stages then some result else none

/-- Prepend the stage predicate to the four compute slots of a body bundle
(the branch slot keeps its text). -/
def add_predicate (b : VliwInstruction) (predicate : String) : VliwInstruction :=
  { b with
    alu0 := b.alu0.map (fun u => { u with string_representation := predicate ++ u.string_representation }),
    alu1 := b.alu1.map (fun u => { u with string_representation := predicate ++ u.string_representation }),
    mul := b.mul.map (fun u => { u with string_representation := predicate ++ u.string_representation }),
    mem := b.mem.map (fun u => { u with string_representation := predicate ++ u.string_representation }) }

/-- Move one occupied slot of a body bundle into the compressed bundle; the
target slot must still be free (`assert ... is None`). -/
def place_into (src dst : Option VliwInstructionUnit) : Option (Option VliwInstructionUnit) :=
  match src with
  | none => some dst
  | some u =>
    match dst with
    | none => some (some u)
    | some _ => none

/-- The body loop of `compress_loop_body`: predicate each bundle and pack it
into the compressed array at `idx % ii`. -/
def compress_fold (s : VliwProgram) :
    List VliwInstruction → Nat → List VliwInstruction → Option (List VliwInstruction)
  | [], _, compressed => some compressed
  | bundle :: rest, idx, compressed => do
    let stg ← get_stage s (idx + s.start_loop)
    let predicate := "(p" ++ toString (32 + stg) ++ ") "
    let bundle_pos := idx % s.ii
    let bundle' := add_predicate bundle predicate
    let target ← compressed.get? bundle_pos
    let a0 ← place_into bundle'.alu0 target.alu0
    let a1 ← place_into bundle'.alu1 target.alu1
    let m ← place_into bundle'.mul target.mul
    let me ← place_into bundle'.mem target.mem
    let br ← place_into bundle'.branch target.branch
    compress_fold s rest (idx + 1) (compressed.set bundle_pos ⟨a0, a1, m, me, br⟩)

/-- `VliwProgram.compress_loop_body`.  Note: the Python method replaces the
body bundles but never reassigns `end_loop`. -/
def compress_loop_body (risc : RiscProgram) (s : VliwProgram) : Option VliwProgram :=
  if risc.BB1_start = risc.BB2_start then some s else do
  let prologue_0 := "mov p32, true"
  let prologue_1 := "mov EC, " ++ toString ((s.no_stages : Int) - 1)
  let prologue_alu1 : VliwInstructionUnit := ⟨none, prologue_0, some (-1)⟩
  let prologue_alu0 : VliwInstructionUnit := ⟨none, prologue_1, none⟩
  let to_match := [prologue_alu0, prologue_alu1]
  let (nr_matched, s) ←
    if 0 < s.start_loop then do
      let bundle ← s.program.get? (s.start_loop - 1)
      let (nr1, bundle) :=
        if bundle.alu0 = none then (1, { bundle with alu0 := some prologue_alu0 })
        else (0, bundle)
      let (nr2, bundle) ←
        if bundle.alu1 = none then do
          let u ← to_match.get? nr1
          pure (nr1 + 1, { bundle with alu1 := some u })
        else pure (nr1, bundle)
      pure (nr2, { s with program := s.program.set (s.start_loop - 1) bundle })
    else pure (0, s)
  let prologue_bundle : VliwInstruction :=
    if nr_matched = 1 then ⟨some prologue_alu1, none, none, none, none⟩
    else ⟨some prologue_alu0, some prologue_alu1, none, none, none⟩
  let s ←
    if nr_matched ≠ 2 then do
      let prog := s.program.take s.start_loop ++ [prologue_bundle] ++ s.program.drop s.start_loop
      let start_loop := s.start_loop + 1
      let end_loop := s.end_loop + 1
      let bLast ← prog.get? (end_loop - 1)
      let brUnit ← bLast.branch
      let brUnit' := { brUnit with
        string_representation := "loop.pip " ++ toString start_loop }
      let bLast' := { bLast with branch := some brUnit' }
      pure { s with
        program := prog.set (end_loop - 1) bLast',
        start_loop := start_loop, end_loop := end_loop }
    else pure s
  let body := (s.program.drop s.start_loop).take (s.end_loop - s.start_loop)
  let compressed ← compress_fold s body 0 (List.replicate s.ii VliwInstruction.empty)
  pure { s with program :=
    s.program.take s.start_loop ++ compressed ++ s.program.drop s.end_loop }

/- ### scheduler.py: drivers -/

/-- The BB1 resource census of `generate_loop_pip_schedule` (an instruction
with no unit kind hits `assert False`). -/
def count_kinds : List RiscInstruction → Nat × Nat × Nat → Option (Nat × Nat × Nat)
  | [], acc => some acc
  | i :: rest, (a, m, me) =>
    if i.is_alu then count_kinds rest (a + 1, m, me)
    else if i.is_mul then count_kinds rest (a, m + 1, me)
    else if i.is_mem then count_kinds rest (a, m, me + 1)
    else none

/-- `ii = max([(nr_alu_instr + 1) // 2, nr_mul_instr, nr_mem_instr])` over BB1.
Modelled from the spec: scheduler.py iterates `risc.BB1`, an attribute the
RiscProgram class does not define; the spec's BB1 is the index range
`[BB1_start, BB2_start)`. -/
def ii_lower_bound (risc : RiscProgram) : Option Nat := do
  let bb1 := (risc.program.drop risc.BB1_start).take (risc.BB2_start - risc.BB1_start)
  let (a, m, me) ← count_kinds bb1 (0, 0, 0)
  pure (max ((a + 1) / 2) (max m me))

/-- The sequential II search of `generate_loop_pip_schedule` (cap 1000, as in
scheduler.py); 1002 units of fuel cover every II the cap admits. -/
def pip_search (risc : RiscProgram) : Nat → Nat → VliwProgram → Option VliwProgram
  | _, 0, _ => none
  | ii, fuel + 1, s =>
    if 1000 < ii then none
    else do
      let (ok, s') ← schedule_loop_pip_instructions risc s ii
      if ok then some s' else pip_search risc (ii + 1) fuel s'

/-- Modelled from the spec: the driver in scheduler.py targets the stale
data.py API (`schedule_BB0`, `schedule_BB1`, `invalid_schedule`, none of which
exist), so the wiring of the vliw_ds phases is taken from spec section 4.4:
BB0, then BB1 with its branch, then the interloop widening, then BB2. -/
def generate_loop_schedule (risc : RiscProgram) : Option VliwProgram := do
  let s ← schedule_loopless_instructions risc VliwProgram.empty "BB0" none
  let s ← schedule_loop_instructions_without_interloop_dep risc s
  let s ← fix_interloop_dependencies risc s
  schedule_loopless_instructions risc s "BB2" none

/-- Modelled from the spec: the missing-loop guard of
`generate_loop_pip_schedule` (scheduler.py reads `risc.BB1 == []`, an
attribute that does not exist; the spec's test is an empty BB1 range), then
BB0, the II search starting from the resource lower bound, and BB2. -/
def generate_loop_pip_schedule (risc : RiscProgram) : Option VliwProgram :=
  if risc.BB1_start = risc.BB2_start then generate_loop_schedule risc
  else do
    let s ← schedule_loopless_instructions risc VliwProgram.empty "BB0" none
    let lb ← ii_lower_bound risc
    let s ← pip_search risc lb 1002 s
    schedule_loopless_instructions risc s "BB2" none

/- ### register_renaming.py -/

/-- A fix-up tuple of `rename_loop`:
`(earliest_slot, renamed_BB0_reg, renamed_BB1_reg)`. -/
abbrev Mov := Nat × Option Int × Option Int

/-- Lookup in a per-instruction rename dict (string keys, values an int or
`None`); `none` = `KeyError`. -/
def sdict_get (d : List (String × Option Int)) (k : String) : Option (Option Int) :=
  (d.find? (fun e => e.1 == k)).map (fun e => e.2)

/-- Store into a per-instruction rename dict. -/
def sdict_set (d : List (String × Option Int)) (k : String) (v : Option Int) :
    List (String × Option Int) :=
  (k, v) :: d.eraseP (fun e => e.1 == k)

/-- `final_movs.add(t)`: set insertion (kept in insertion order). -/
def movs_add (movs : List Mov) (m : Mov) : List Mov :=
  if m ∈ movs then movs else movs ++ [m]

/-- One unit of the inner loop of `rename_dest_registers`: when the slot holds
an instruction with a real destination, assign the next free register (the
rotating one when `is_rotating`) as the renamed destination of its RISC
instruction, which must not have been renamed before (`assert ... is None`).
The state is `(risc, next_free_non_rotating, next_free_rotating)`. -/
def rename_unit_dest (no_stages : Nat) (is_rotating : Bool)
    (st : RiscProgram × Int × Int) (u : Option VliwInstructionUnit) :
    Option (RiscProgram × Int × Int) :=
  match u with
  | none => some st
  | some unit =>
    match unit.dest_register with
    | none => some st
    | some d =>
      if d = -1 then some st else
      match st with
      | (risc, nonrot, rot) => do
        let new_dest := if is_rotating then rot else nonrot
        let ridx ← unit.risc_idx
        let ins ← pyListGet risc.program ridx
        match ins.renamed_dest_register with
        | some _ => none
        | none => do
          let prog ← pyListSet risc.program ridx
            { ins with renamed_dest_register := some new_dest }
          if is_rotating then
            some ({ risc with program := prog }, nonrot, rot + ((no_stages : Nat) + 1))
          else
            some ({ risc with program := prog }, nonrot + 1, rot)

/-- The bundle loop of `rename_dest_registers`, structural on the number of
remaining bundle indices. -/
def rename_dest_go (vliwS : VliwProgram) (is_rotating : Bool) :
    Nat → Nat → RiscProgram × Int × Int → Option (RiscProgram × Int × Int)
  | 0, _, st => some st
  | n + 1, bundle_idx, st => do
    let bundle ← pyListGet vliwS.program (bundle_idx : Int)
    let st ← rename_unit_dest vliwS.no_stages is_rotating st bundle.alu0
    let st ← rename_unit_dest vliwS.no_stages is_rotating st bundle.alu1
    let st ← rename_unit_dest vliwS.no_stages is_rotating st bundle.mul
    let st ← rename_unit_dest vliwS.no_stages is_rotating st bundle.mem
    let st ← rename_unit_dest vliwS.no_stages is_rotating st bundle.branch
    rename_dest_go vliwS is_rotating n (bundle_idx + 1) st

/-- `RegisterRename.rename_dest_registers`. -/
def rename_dest_registers (vliwS : VliwProgram) (vliw_start vliw_stop : Nat)
    (is_rotating : Bool) (st : RiscProgram × Int × Int) :
    Option (RiscProgram × Int × Int) :=
  rename_dest_go vliwS is_rotating (vliw_stop - vliw_start) vliw_start st

/-- `ans.find(c, start)` for a nonnegative `start`: the least index `≥ start`
holding the character, `-1` when there is none. -/
def findCharFrom (l : List Char) (c : Char) (start : Nat) : Int :=
  match (l.drop start).findIdx? (fun d => d == c) with
  | some i => ((start + i : Nat) : Int)
  | none => -1

/-- The length of the run of digit characters at the head of the list (the
source tests `str.isnumeric`, which on the repository's ASCII texts is
exactly the decimal digits). -/
def countDigits : List Char → Nat
  | [] => 0
  | c :: rest => if c.isDigit then countDigits rest + 1 else 0

/-- Python `int(s)` on a scanned digit run (empty raises). -/
def decimalValue (l : List Char) : Option Nat :=
  if l.isEmpty ∨ ¬ l.all Char.isDigit then none
  else some (l.foldl (fun n c => n * 10 + (c.toNat - '0'.toNat)) 0)

/-- Python `int(s, 16)` on a scanned digit run: the run only ever holds
decimal digits (a hex letter would have ended the `isnumeric` scan), read
here in base 16; empty raises. -/
def hexValue (l : List Char) : Option Nat :=
  if l.isEmpty ∨ ¬ l.all Char.isDigit then none
  else some (l.foldl (fun n c => n * 16 + (c.toNat - '0'.toNat)) 0)

/-- Python `str` of an optional int as interpolated into a rewritten text
(`str(None)` is the text `None`). -/
def pyStrOptInt : Option Int → List Char
  | some v => (toString v).toList
  | none => "None".toList

/-- The scan loop of `string_representation_after_register_rename`.  Each
iteration finds the next `x` strictly after `last_x_location` (initially 0,
so an `x` at position 0 is never seen), takes the digit run after it, and
either resolves a `0x` immediate in place, or replaces the first register
(which must equal the instruction's recorded destination) by the renamed
destination.  Any further register falls into the `assert reg in rename_dict`
branch, which always raises: `reg` is an `int` while the dict keys are the
`str` dependency tags of the analysis, so the membership test is always
False — the dict argument of the source can therefore never supply a value
and is omitted here.  Each iteration moves `last_x_location` past one `x` of
the text and the inserted pieces (decimal digits) contain no `x`, so
`count 'x' + 1` units of fuel make this exactly the Python loop. -/
def rename_text_go (dest_register new_dest_register : Option Int) :
    Nat → List Char → Nat → Bool → Option (List Char)
  | 0, _, _, _ => none
  | fuel + 1, ans, last_x_location, is_first_iteration =>
    match findCharFrom ans 'x' (last_x_location + 1) with
    | Int.negSucc _ => some ans
    | Int.ofNat lx =>
      let start := lx + 1
      let stop := start + countDigits (ans.drop (start + 1))
      if ans.get? (start - 2) = some '0' then do
        let v ← hexValue ((ans.drop start).take (stop + 1 - start))
        rename_text_go dest_register new_dest_register fuel
          (ans.take (start - 2) ++ (toString v).toList ++ ans.drop (stop + 1))
          lx is_first_iteration
      else do
        let reg ← decimalValue ((ans.drop start).take (stop + 1 - start))
        if is_first_iteration ∧ dest_register ≠ none then
          if some (reg : Int) = dest_register then
            rename_text_go dest_register new_dest_register fuel
              (ans.take start ++ pyStrOptInt new_dest_register ++ ans.drop (stop + 1))
              lx false
          else none
        else none

/-- `RegisterRename.string_representation_after_register_rename`: the two
leading asserts relating the unit's destination and the renamed one, then the
scan loop. -/
def string_representation_after_register_rename
    (instruction : VliwInstructionUnit) (new_dest_register : Option Int) :
    Option String :=
  let l := instruction.string_representation.toList
  let run := rename_text_go instruction.dest_register new_dest_register
    (l.count 'x' + 1) l 0 true
  if instruction.dest_register = some (-1) then
    if new_dest_register = none then run.map String.mk else none
  else
    if (new_dest_register = none ↔ instruction.dest_register = none) then
      run.map String.mk
    else none

/-- The dependency loop of `rename_loop`: fill the per-instruction rename
dict (a fresh non-rotating dummy when there is no producer, the renamed
destination of the last listed producer otherwise) and, for a dependency with
two listed producers, record the fix-up tuple built from
`producers_idx[0]` — the first listed (BB1) producer — and the dict entry
just stored. -/
def rename_loop_dep_fold (risc : RiscProgram) (vliwS : VliwProgram) :
    List RegisterDependency → List (String × Option Int) × Int × List Mov →
    Option (List (String × Option Int) × Int × List Mov)
  | [], st => some st
  | dep :: rest, (dict, nonrot, movs) =>
    if dep.producers_idx = [] then
      rename_loop_dep_fold risc vliwS rest
        (sdict_set dict dep.reg_tag (some nonrot), nonrot + 1, movs)
    else do
      let plast ← dep.producers_idx.getLast?
      let pins ← risc.program.get? plast
      let dict := sdict_set dict dep.reg_tag pins.renamed_dest_register
      if dep.producers_idx.length = 2 then do
        let p0 ← dep.producers_idx.get? 0
        let producer_bundle_idx ← dict_get vliwS.risc_pos_to_vliw_pos p0
        let pins0 ← risc.program.get? p0
        let earliest_slot := max (producer_bundle_idx + pins0.latency)
          (vliwS.end_loop - 1)
        let renamed_BB0_reg ← sdict_get dict dep.reg_tag
        let renamed_BB1_reg := pins0.renamed_dest_register
        rename_loop_dep_fold risc vliwS rest
          (dict, nonrot, movs_add movs (earliest_slot, renamed_BB0_reg, renamed_BB1_reg))
      else
        rename_loop_dep_fold risc vliwS rest (dict, nonrot, movs)

/-- One unit of the renaming loop of `rename_loop`: run the dependency fold
and rewrite the unit's text. -/
def rename_loop_unit (risc : RiscProgram) (vliwS : VliwProgram)
    (u : Option VliwInstructionUnit) (nonrot : Int) (movs : List Mov) :
    Option (Option VliwInstructionUnit × Int × List Mov) :=
  match u with
  | none => some (none, nonrot, movs)
  | some unit => do
    let ridx ← unit.risc_idx
    let risc_instr ← pyListGet risc.program ridx
    let (_, nonrot, movs) ←
      rename_loop_dep_fold risc vliwS risc_instr.register_dependencies
        ([], nonrot, movs)
    let text ← string_representation_after_register_rename unit
      risc_instr.renamed_dest_register
    some (some { unit with string_representation := text }, nonrot, movs)

/-- One bundle of the renaming loop of `rename_loop` (the four compute
slots; the branch slot is not visited). -/
def rename_loop_bundle (risc : RiscProgram) (vliwS : VliwProgram)
    (bundle : VliwInstruction) (nonrot : Int) (movs : List Mov) :
    Option (VliwInstruction × Int × List Mov) := do
  let (a0, nonrot, movs) ← rename_loop_unit risc vliwS bundle.alu0 nonrot movs
  let (a1, nonrot, movs) ← rename_loop_unit risc vliwS bundle.alu1 nonrot movs
  let (mu, nonrot, movs) ← rename_loop_unit risc vliwS bundle.mul nonrot movs
  let (me, nonrot, movs) ← rename_loop_unit risc vliwS bundle.mem nonrot movs
  some ({ bundle with alu0 := a0, alu1 := a1, mul := mu, mem := me }, nonrot, movs)

/-- The bundle loop of the renaming phase of `rename_loop` (text rewrites
only touch the bundle at hand, so the walk is over the entry program). -/
def rename_loop_scan (risc : RiscProgram) :
    Nat → Nat → VliwProgram × Int × List Mov →
    Option (VliwProgram × Int × List Mov)
  | 0, _, st => some st
  | n + 1, idx, (vliwS, nonrot, movs) => do
    let bundle ← vliwS.program.get? idx
    let (bundle, nonrot, movs) ← rename_loop_bundle risc vliwS bundle nonrot movs
    rename_loop_scan risc n (idx + 1)
      ({ vliwS with program := vliwS.program.set idx bundle }, nonrot, movs)

/-- Phases 1 and 2 of `RegisterRename.rename_loop` (destination renaming over
the whole program with the constructor's counters 1 and 32, then the renaming
loop): the renamed RISC program — which the remaining phases never touch —
the rewritten bundles, the final non-rotating counter, and the recorded
fix-up tuples. -/
def rename_loop_core (risc : RiscProgram) (vliw : VliwProgram) :
    Option (RiscProgram × VliwProgram × Int × List Mov) := do
  let (risc, nonrot, _rot) ←
    rename_dest_registers vliw 0 vliw.program.length false (risc, 1, 32)
  let (vliw, nonrot, movs) ←
    rename_loop_scan risc vliw.program.length 0 (vliw, nonrot, [])
  some (risc, vliw, nonrot, movs)

/-- The sort key of `final_movs.sort(key=lambda x: x[1])`. -/
def mov_key (m : Mov) : Option Int := m.2.1

/-- Stable insertion into a list sorted by `mov_key`; two `none` keys never
reach the comparison in the guarded `mov_sort_py` below. -/
def mov_insert (m : Mov) : List Mov → List Mov
  | [] => [m]
  | n :: rest =>
    match mov_key m, mov_key n with
    | some a, some b => if a ≤ b then m :: n :: rest else n :: mov_insert m rest
    | _, _ => n :: mov_insert m rest

/-- Stable sort by `mov_key` (Python's sort is stable). -/
def mov_sort : List Mov → List Mov
  | [] => []
  | m :: rest => mov_insert m (mov_sort rest)

/-- `final_movs.sort(key=lambda x: x[1])`: comparing a `None` key against an
int raises `TypeError`; a list of at most one element is never compared,
while on two or more elements the sort's initial run detection compares every
adjacent pair, so any `None` key raises. -/
def mov_sort_py (movs : List Mov) : Option (List Mov) :=
  if movs.length ≤ 1 then some movs
  else if movs.all (fun m => (mov_key m).isSome) then some (mov_sort movs)
  else none

/-- The catch-up `while line >= self.vliw.end_loop` of the mov-insertion loop
of `rename_loop`: statement for statement the widening step of
`fix_interloop_dependencies`, so it reuses `widen_step`; each step advances
`end_loop` by one, so `line + 1 - end_loop` steps are exactly Python's. -/
def mov_catch_up (line : Nat) : Nat → VliwProgram → Option VliwProgram
  | 0, s => some s
  | fuel + 1, s =>
    if s.end_loop ≤ line then do
      let s' ← widen_step s
      mov_catch_up line fuel s'
    else some s

/-- One tuple of the mov-insertion loop of `rename_loop`: catch the loop end
up to `line`, then place `mov xBB0, xBB1` (destination and `risc_idx` both
`-1`) into the first free ALU slot of the bundle at `line`.  The Python
`while True` never advances `line`, so when neither ALU slot is free the loop
hangs forever (`none` here). -/
def insert_mov (s : VliwProgram) (m : Mov) : Option VliwProgram := do
  let line := m.1
  let s ← mov_catch_up line (line + 1 - s.end_loop) s
  let bundle ← s.program.get? line
  let text := String.mk
    ("mov x".toList ++ pyStrOptInt m.2.1 ++ ", x".toList ++ pyStrOptInt m.2.2)
  let unit : VliwInstructionUnit := ⟨some (-1), text, some (-1)⟩
  if bundle.alu0 = none then
    some { s with program := s.program.set line { bundle with alu0 := some unit } }
  else if bundle.alu1 = none then
    some { s with program := s.program.set line { bundle with alu1 := some unit } }
  else none

/-- The mov-insertion loop of `rename_loop`. -/
def insert_movs (s : VliwProgram) : List Mov → Option VliwProgram
  | [] => some s
  | m :: rest => do
    let s' ← insert_mov s m
    insert_movs s' rest

/-- `RegisterRename.rename_loop` (entered with the constructor's counters
1 and 32): phases 1 and 2, then the sorted fix-up movs are inserted. -/
def rename_loop (risc : RiscProgram) (vliw : VliwProgram) :
    Option (RiscProgram × VliwProgram × Int) := do
  let (risc, vliw, nonrot, movs) ← rename_loop_core risc vliw
  let movs ← mov_sort_py movs
  let vliw ← insert_movs vliw movs
  some (risc, vliw, nonrot)

/-- The dependency loop of the final renaming phase of `rename_loop_pip`
(the operand-rewrite rules of the pipelined case, applied to the instruction
at `bundle_idx` whose RISC index is `consumer_risc_idx`); the state is the
per-instruction rename dict and the non-rotating counter.  Adding an int to
a `renamed_dest_register` that is still `None` raises `TypeError`. -/
def rename_pip_dep_fold (risc : RiscProgram) (vliwS : VliwProgram)
    (bundle_idx : Nat) (consumer_risc_idx : Int) :
    List RegisterDependency → List (String × Option Int) × Int →
    Option (List (String × Option Int) × Int)
  | [], st => some st
  | dep :: rest, (dict, nonrot) =>
    if dep.is_loop_invariant then do
      let p0 ← dep.producers_idx.get? 0
      let pins ← risc.program.get? p0
      rename_pip_dep_fold risc vliwS bundle_idx consumer_risc_idx rest
        (sdict_set dict dep.reg_tag pins.renamed_dest_register, nonrot)
    else if dep.is_local ∨ dep.is_interloop then
      if vliwS.start_loop > bundle_idx ∨ vliwS.end_loop ≤ bundle_idx then
        if dep.is_local then do
          let p0 ← dep.producers_idx.get? 0
          let pins ← risc.program.get? p0
          rename_pip_dep_fold risc vliwS bundle_idx consumer_risc_idx rest
            (sdict_set dict dep.reg_tag pins.renamed_dest_register, nonrot)
        else none
      else do
        let producer_idx ← dep.producers_idx.get? 0
        let ppos ← dict_get vliwS.risc_pos_to_vliw_pos producer_idx
        let producer_stage ← get_stage vliwS ppos
        let cpos ← if consumer_risc_idx < 0 then none
          else dict_get vliwS.risc_pos_to_vliw_pos consumer_risc_idx.toNat
        let consumer_stage ← get_stage vliwS cpos
        let pins ← risc.program.get? producer_idx
        let pr ← pins.renamed_dest_register
        let new_register := pr + ((consumer_stage : Int) - (producer_stage : Int))
          + (if dep.is_interloop then 1 else 0)
        rename_pip_dep_fold risc vliwS bundle_idx consumer_risc_idx rest
          (sdict_set dict dep.reg_tag (some new_register), nonrot)
    else if dep.is_post_loop then do
      let producer_idx ← dep.producers_idx.get? 0
      let ppos ← dict_get vliwS.risc_pos_to_vliw_pos producer_idx
      let producer_stage ← get_stage vliwS ppos
      let consumer_stage := vliwS.no_stages
      let pins ← risc.program.get? producer_idx
      let pr ← pins.renamed_dest_register
      rename_pip_dep_fold risc vliwS bundle_idx consumer_risc_idx rest
        (sdict_set dict dep.reg_tag
          (some (pr + ((consumer_stage : Int) - (producer_stage : Int)))), nonrot)
    else
      if dep.producers_idx = [] then
        rename_pip_dep_fold risc vliwS bundle_idx consumer_risc_idx rest
          (sdict_set dict dep.reg_tag (some nonrot), nonrot + 1)
      else none

/- ### Dictionary and list lemmas -/

theorem dict_get_dict_set_self (d : List (Nat × Nat)) (k v : Nat) :
    dict_get (dict_set d k v) k = some v := by
  simp [dict_get, dict_set, List.find?]

theorem find?_eraseP_key (d : List (Nat × Nat)) (k k' : Nat) (h : k' ≠ k) :
    (d.eraseP (fun e => e.1 == k)).find? (fun e => e.1 == k') =
      d.find? (fun e => e.1 == k') := by
  induction d with
  | nil => rfl
  | cons a rest ih =>
    by_cases ha : a.1 = k
    · rw [List.eraseP_cons_of_pos (by simp [ha]),
        List.find?_cons_of_neg _ (by simp [ha]; omega)]
    · rw [List.eraseP_cons_of_neg (by simp [ha])]
      by_cases hk' : a.1 = k'
      · rw [List.find?_cons_of_pos _ (by simp [hk']), List.find?_cons_of_pos _ (by simp [hk'])]
      · rw [List.find?_cons_of_neg _ (by simp [hk']), List.find?_cons_of_neg _ (by simp [hk']), ih]

theorem dict_get_dict_set_ne (d : List (Nat × Nat)) (k v k' : Nat) (h : k' ≠ k) :
    dict_get (dict_set d k v) k' = dict_get d k' := by
  simp only [dict_get, dict_set]
  rw [List.find?_cons_of_neg _ (by simp; omega), find?_eraseP_key d k k' h]

theorem eraseP_key_of_not_mem (d : List (Nat × Nat)) (k : Nat)
    (h : ∀ e ∈ d, e.1 ≠ k) : d.eraseP (fun e => e.1 == k) = d :=
  List.eraseP_of_forall_not (fun e he => by simp [h e he])

theorem dict_get_append_left_none (ext d : List (Nat × Nat)) (k : Nat)
    (h : ∀ e ∈ ext, e.1 ≠ k) : dict_get (ext ++ d) k = dict_get d k := by
  simp only [dict_get, List.find?_append]
  have : ext.find? (fun e => e.1 == k) = none := by
    rw [List.find?_eq_none]
    intro e he
    simp [h e he]
  rw [this]
  simp

theorem dict_get_mem (d : List (Nat × Nat)) (k v : Nat)
    (h : dict_get d k = some v) : (k, v) ∈ d := by
  simp only [dict_get, Option.map_eq_some'] at h
  obtain ⟨e, he, hv⟩ := h
  have h1 := List.find?_some he
  have h2 := List.mem_of_find?_eq_some he
  simp only [beq_iff_eq] at h1
  have : e = (k, v) := by
    cases e
    simp_all
  rw [← this]
  exact h2

theorem dict_get_none_iff (d : List (Nat × Nat)) (k : Nat) :
    dict_get d k = none ↔ ∀ e ∈ d, e.1 ≠ k := by
  simp only [dict_get, Option.map_eq_none', List.find?_eq_none, beq_iff_eq]

/- ### extend_to lemmas -/

theorem extend_to_length (prog : List VliwInstruction) (pos : Nat) :
    (extend_to prog pos).length = max prog.length (pos + 1) := by
  simp [extend_to]
  omega

theorem extend_to_get?_lt (prog : List VliwInstruction) (pos j : Nat)
    (h : j < prog.length) : (extend_to prog pos).get? j = prog.get? j := by
  unfold extend_to
  exact List.get?_append h

/- ### scan_slot and dep_start_fold specs -/

theorem scan_slot_ge (s : VliwProgram) (instruction : RiscInstruction)
    (loop_start : Nat) (ii : Option Nat) (pos fuel res : Nat) (u : String)
    (h : scan_slot s instruction loop_start ii pos fuel = some (res, u)) :
    pos ≤ res := by
  induction fuel generalizing pos with
  | zero => simp [scan_slot] at h
  | succ fuel ih =>
    rcases ii with _ | k
    all_goals simp only [scan_slot] at h
    · rcases hp : get_available_bundle_slots
        (s.program.getD pos VliwInstruction.empty) instruction with _ | ⟨u', rest⟩ <;>
        rw [hp] at h
      · exact le_trans (Nat.le_succ pos) (ih (pos + 1) h)
      · simp only [Option.some.injEq, Prod.mk.injEq] at h
        omega
    · by_cases hk : k = 0
      · simp [hk] at h
      · rw [if_neg hk] at h
        rcases hp : (get_available_bundle_slots
            (s.program.getD pos VliwInstruction.empty) instruction).filter
            (fun u => ¬ ((pos - loop_start) % k, u) ∈ s.unavailable_slots) with _ | ⟨u', rest⟩ <;>
          rw [hp] at h
        · exact le_trans (Nat.le_succ pos) (ih (pos + 1) h)
        · simp only [Option.some.injEq, Prod.mk.injEq] at h
          omega

theorem dep_start_fold_spec (risc : RiscProgram) (s : VliwProgram)
    (deps : List RegisterDependency) (acc r : Nat)
    (h : dep_start_fold risc s deps acc = some r) :
    acc ≤ r ∧
    ∀ dep ∈ deps, dep_is_set dep = true →
      ∃ p vp insp, dep.producers_idx.getLast? = some p ∧
        dict_get s.risc_pos_to_vliw_pos p = some vp ∧
        risc.program.get? p = some insp ∧ vp + insp.latency ≤ r := by
  induction deps generalizing acc with
  | nil =>
    simp only [dep_start_fold, Option.some.injEq] at h
    exact ⟨le_of_eq h, by simp⟩
  | cons dep rest ih =>
    simp only [dep_start_fold] at h
    by_cases hset : dep_is_set dep = true
    · rw [if_pos hset] at h
      simp only [Option.bind_eq_bind, Option.bind_eq_some] at h
      obtain ⟨p, hp, vp, hvp, insp, hinsp, hrest⟩ := h
      obtain ⟨hacc, hall⟩ := ih _ hrest
      refine ⟨le_trans (le_max_left _ _) hacc, ?_⟩
      intro d hd hds
      rcases List.mem_cons.mp hd with hd | hd
      · subst hd
        exact ⟨p, vp, insp, hp, hvp, hinsp, le_trans (le_max_right _ _) hacc⟩
      · exact hall d hd hds
    · rw [if_neg hset] at h
      by_cases hemp : dep.producers_idx = []
      · rw [if_pos hemp] at h
        obtain ⟨hacc, hall⟩ := ih _ h
        refine ⟨hacc, ?_⟩
        intro d hd hds
        rcases List.mem_cons.mp hd with hd | hd
        · subst hd; exact absurd hds hset
        · exact hall d hd hds
      · rw [if_neg hemp] at h
        exact absurd h (by simp)

/- ### The placement spec -/

/-- All the facts later proofs need about one call of
`schedule_risc_instruction`: the position map gains exactly the binding for
`idx`, at a bundle no earlier than the requested start, all other bundles
below the old length are untouched, the loop fields are untouched, and the
chosen bundle respects every set dependency's last producer. -/
theorem schedule_risc_instruction_spec (risc : RiscProgram) (s : VliwProgram)
    (ins : RiscInstruction) (idx ssp : Nat) (ii : Option Nat) (s' : VliwProgram)
    (h : schedule_risc_instruction risc s ins idx ssp ii = some s') :
    ∃ v,
      s'.risc_pos_to_vliw_pos = dict_set s.risc_pos_to_vliw_pos idx v ∧
      ssp ≤ v ∧
      v < s'.program.length ∧
      s.program.length ≤ s'.program.length ∧
      (∀ j, j < s.program.length → j ≠ v → s'.program.get? j = s.program.get? j) ∧
      s'.start_loop = s.start_loop ∧ s'.end_loop = s.end_loop ∧
      s'.ii = s.ii ∧ s'.no_stages = s.no_stages ∧
      (ii = none → s'.unavailable_slots = s.unavailable_slots) ∧
      (∀ dep ∈ ins.register_dependencies, dep_is_set dep = true →
        ∃ p vp insp, dep.producers_idx.getLast? = some p ∧
          dict_get s.risc_pos_to_vliw_pos p = some vp ∧
          risc.program.get? p = some insp ∧ vp + insp.latency ≤ v) := by
  unfold schedule_risc_instruction at h
  simp only [Option.bind_eq_bind, Option.bind_eq_some] at h
  obtain ⟨start, hstart, pr, hscan, bundle, hbundle, bundle', hbundle', hs'⟩ := h
  obtain ⟨pos, uname⟩ := pr
  obtain ⟨hssp, hdeps⟩ := dep_start_fold_spec risc s _ _ _ hstart
  have hpos : start ≤ pos := scan_slot_ge s ins ssp ii start _ pos uname hscan
  simp only [Option.pure_def, Option.some.injEq] at hs'
  subst hs'
  have hlen : ((extend_to s.program pos).set pos bundle').length =
      max s.program.length (pos + 1) := by
    rw [List.length_set, extend_to_length]
  refine ⟨pos, rfl, ?_, ?_, ?_, ?_, rfl, rfl, rfl, rfl,
    fun hii => ?_, ?_⟩
  · exact le_trans hssp hpos
  · show pos < ((extend_to s.program pos).set pos bundle').length
    omega
  · show s.program.length ≤ ((extend_to s.program pos).set pos bundle').length
    omega
  · intro j hj hne
    show ((extend_to s.program pos).set pos bundle').get? j = s.program.get? j
    have h1 : ((extend_to s.program pos).set pos bundle').get? j =
        (extend_to s.program pos).get? j := by
      simp only [List.get?_eq_getElem?]
      exact List.getElem?_set_ne (fun he => hne he.symm)
    rw [h1, extend_to_get?_lt _ _ _ hj]
  · subst hii
    rfl
  · intro dep hdep hset
    obtain ⟨p, vp, insp, h1, h2, h3, h4⟩ := hdeps dep hdep hset
    exact ⟨p, vp, insp, h1, h2, h3, le_trans h4 hpos⟩

/- ### The latency invariant -/

/-- Every scheduled consumer sits at least `latency` bundles after the last
listed producer of each of its set dependencies. -/
def DepOk (risc : RiscProgram) (s : VliwProgram) : Prop :=
  ∀ c vc ins, dict_get s.risc_pos_to_vliw_pos c = some vc →
    risc.program.get? c = some ins →
    ∀ dep ∈ ins.register_dependencies, dep_is_set dep = true →
      ∃ p vp insp, dep.producers_idx.getLast? = some p ∧
        dict_get s.risc_pos_to_vliw_pos p = some vp ∧
        risc.program.get? p = some insp ∧ vp + insp.latency ≤ vc

/-- One placement preserves the latency invariant, provided the placed index
was not yet scheduled. -/
theorem DepOk_step (risc : RiscProgram) (s s' : VliwProgram)
    (ins : RiscInstruction) (idx ssp : Nat) (ii : Option Nat)
    (h : schedule_risc_instruction risc s ins idx ssp ii = some s')
    (hins : risc.program.get? idx = some ins)
    (hfresh : dict_get s.risc_pos_to_vliw_pos idx = none)
    (hok : DepOk risc s) : DepOk risc s' := by
  obtain ⟨v, hdict, _, _, _, _, _, _, _, _, _, hdeps⟩ :=
    schedule_risc_instruction_spec risc s ins idx ssp ii s' h
  intro c vc insc hc hinsc dep hdep hset
  by_cases hcidx : c = idx
  · subst hcidx
    rw [hdict, dict_get_dict_set_self] at hc
    injection hc with hc
    subst hc
    rw [hins] at hinsc
    injection hinsc with hinsc
    subst hinsc
    obtain ⟨p, vp, insp, h1, h2, h3, h4⟩ := hdeps dep hdep hset
    have hpne : p ≠ c := fun he => by rw [he, hfresh] at h2; cases h2
    exact ⟨p, vp, insp, h1,
      by rw [hdict, dict_get_dict_set_ne _ _ _ _ hpne]; exact h2, h3, h4⟩
  · rw [hdict, dict_get_dict_set_ne _ _ _ _ hcidx] at hc
    obtain ⟨p, vp, insp, h1, h2, h3, h4⟩ := hok c vc insc hc hinsc dep hdep hset
    have hpne : p ≠ idx := fun he => by rw [he, hfresh] at h2; cases h2
    exact ⟨p, vp, insp, h1,
      by rw [hdict, dict_get_dict_set_ne _ _ _ _ hpne]; exact h2, h3, h4⟩

/-- Everything the later proofs need about scheduling a whole index range. -/
theorem schedule_instruction_range_spec (risc : RiscProgram) (ssp : Nat)
    (ii : Option Nat) (stop : Nat) :
    ∀ (start : Nat) (s s' : VliwProgram),
      schedule_instruction_range risc ssp ii start stop s = some s' →
      s.program.length ≤ s'.program.length ∧
      (∀ j, j < s.program.length → j < ssp → s'.program.get? j = s.program.get? j) ∧
      s'.start_loop = s.start_loop ∧ s'.end_loop = s.end_loop ∧
      s'.ii = s.ii ∧ s'.no_stages = s.no_stages ∧
      (ii = none → s'.unavailable_slots = s.unavailable_slots) ∧
      (∀ k, (k < start ∨ stop ≤ k) →
        dict_get s'.risc_pos_to_vliw_pos k = dict_get s.risc_pos_to_vliw_pos k) ∧
      ((∀ e ∈ s.risc_pos_to_vliw_pos, e.2 < s.program.length) →
        ∀ e ∈ s'.risc_pos_to_vliw_pos, e.2 < s'.program.length) ∧
      ((∀ k, start ≤ k → k < stop → dict_get s.risc_pos_to_vliw_pos k = none) →
        (∃ ext : List (Nat × Nat),
          s'.risc_pos_to_vliw_pos = ext ++ s.risc_pos_to_vliw_pos ∧
          ∀ e ∈ ext, start ≤ e.1 ∧ e.1 < stop ∧ ssp ≤ e.2 ∧ e.2 < s'.program.length) ∧
        (DepOk risc s → DepOk risc s')) := by
  suffices key : ∀ (n start : Nat) (s s' : VliwProgram), stop - start = n →
      schedule_instruction_range risc ssp ii start stop s = some s' →
      s.program.length ≤ s'.program.length ∧
      (∀ j, j < s.program.length → j < ssp → s'.program.get? j = s.program.get? j) ∧
      s'.start_loop = s.start_loop ∧ s'.end_loop = s.end_loop ∧
      s'.ii = s.ii ∧ s'.no_stages = s.no_stages ∧
      (ii = none → s'.unavailable_slots = s.unavailable_slots) ∧
      (∀ k, (k < start ∨ stop ≤ k) →
        dict_get s'.risc_pos_to_vliw_pos k = dict_get s.risc_pos_to_vliw_pos k) ∧
      ((∀ e ∈ s.risc_pos_to_vliw_pos, e.2 < s.program.length) →
        ∀ e ∈ s'.risc_pos_to_vliw_pos, e.2 < s'.program.length) ∧
      ((∀ k, start ≤ k → k < stop → dict_get s.risc_pos_to_vliw_pos k = none) →
        (∃ ext : List (Nat × Nat),
          s'.risc_pos_to_vliw_pos = ext ++ s.risc_pos_to_vliw_pos ∧
          ∀ e ∈ ext, start ≤ e.1 ∧ e.1 < stop ∧ ssp ≤ e.2 ∧ e.2 < s'.program.length) ∧
        (DepOk risc s → DepOk risc s')) by
    intro start s s' h
    exact key (stop - start) start s s' rfl h
  intro n
  induction n with
  | zero =>
    intro start s s' heq h
    rw [schedule_instruction_range, heq] at h
    injection h with h
    subst h
    refine ⟨le_rfl, fun j _ _ => rfl, rfl, rfl, rfl, rfl, fun _ => rfl,
      fun k _ => rfl, fun hb => hb, fun _ => ⟨⟨[], by simp, by simp⟩, fun hok => hok⟩⟩
  | succ n ih =>
    intro start s s' heq h
    have hlt : start < stop := by omega
    rw [schedule_instruction_range, heq] at h
    · simp only [schedule_instruction_go, Option.bind_eq_bind, Option.bind_eq_some] at h
      obtain ⟨ins, hins, s₁, hs₁, hrest⟩ := h
      have hrest' : schedule_instruction_range risc ssp ii (start + 1) stop s₁ = some s' := by
        rw [schedule_instruction_range, show stop - (start + 1) = n from by omega]
        exact hrest
      obtain ⟨v, hdict, hsspv, hvlen, hlen1, hget1, hsl1, hel1, hii1, hns1, hun1, hdeps1⟩ :=
        schedule_risc_instruction_spec risc s ins start ssp ii s₁ hs₁
      obtain ⟨hlen2, hget2, hsl2, hel2, hii2, hns2, hun2, hout2, hbound2, hcond2⟩ :=
        ih (start + 1) s₁ s' (by omega) hrest' 
      refine ⟨le_trans hlen1 hlen2, ?_, hsl2.trans hsl1, hel2.trans hel1,
        hii2.trans hii1, hns2.trans hns1, ?_, ?_, ?_, ?_⟩
      · intro j hj hjssp
        rw [hget2 j (by omega) hjssp, hget1 j hj (by omega)]
      · intro hnone
        rw [hun2 hnone, hun1 hnone]
      · intro k hk
        rw [hout2 k (by omega), hdict, dict_get_dict_set_ne _ _ _ _ (by omega)]
      · intro hb e he
        refine hbound2 ?_ e he
        intro e' he'
        rw [hdict] at he'
        rcases List.mem_cons.mp he' with he' | he'
        · subst he'
          exact hvlen
        · have := List.eraseP_sublist (p := fun e => e.1 == start)
            s.risc_pos_to_vliw_pos
          exact lt_of_lt_of_le (hb e' (this.subset he')) hlen1
      · intro hfresh
        have hfr0 : dict_get s.risc_pos_to_vliw_pos start = none :=
          hfresh start le_rfl hlt
        have hnoerase : s.risc_pos_to_vliw_pos.eraseP (fun e => e.1 == start) =
            s.risc_pos_to_vliw_pos :=
          eraseP_key_of_not_mem _ _ ((dict_get_none_iff _ _).mp hfr0)
        have hdict' : s₁.risc_pos_to_vliw_pos = (start, v) :: s.risc_pos_to_vliw_pos := by
          rw [hdict, dict_set, hnoerase]
        have hfresh1 : ∀ k, start + 1 ≤ k → k < stop →
            dict_get s₁.risc_pos_to_vliw_pos k = none := by
          intro k hk1 hk2
          rw [hdict, dict_get_dict_set_ne _ _ _ _ (by omega)]
          exact hfresh k (by omega) hk2
        obtain ⟨⟨ext1, hext1, hbext1⟩, hdep2⟩ := hcond2 hfresh1
        constructor
        · refine ⟨ext1 ++ [(start, v)], ?_, ?_⟩
          · rw [hext1, hdict', List.append_assoc]
            rfl
          · intro e he
            rcases List.mem_append.mp he with he | he
            · obtain ⟨a1, a2, a3, a4⟩ := hbext1 e he
              exact ⟨by omega, a2, a3, a4⟩
            · simp only [List.mem_singleton] at he
              subst he
              exact ⟨le_rfl, hlt, hsspv, lt_of_lt_of_le hvlen hlen2⟩
        · intro hok
          exact hdep2 (DepOk_step risc s s₁ ins start ssp ii hs₁ hins hfr0 hok)

/- ### Interloop II lemmas -/

theorem compute_min_ii_fold_spec (risc : RiscProgram) (s : VliwProgram)
    (instr_idx : Nat) (deps : List RegisterDependency) (acc m : Int)
    (h : compute_min_ii_fold risc s instr_idx deps acc = some m) :
    acc ≤ m ∧
    ∀ dep ∈ deps, dep.is_interloop = true →
      ∃ p0 vp insp vc, dep.producers_idx.get? 0 = some p0 ∧
        dict_get s.risc_pos_to_vliw_pos p0 = some vp ∧
        risc.program.get? p0 = some insp ∧
        dict_get s.risc_pos_to_vliw_pos instr_idx = some vc ∧
        (vp : Int) + (insp.latency : Int) - (vc : Int) ≤ m := by
  induction deps generalizing acc with
  | nil =>
    simp only [compute_min_ii_fold, Option.some.injEq] at h
    exact ⟨le_of_eq h, by simp⟩
  | cons dep rest ih =>
    simp only [compute_min_ii_fold] at h
    by_cases hil : dep.is_interloop = true
    · rw [if_pos hil] at h
      by_cases hord : (match dep.producers_idx with
          | [a, b] => decide (b < a)
          | _ => true) = true
      · rw [if_neg (by simp [hord])] at h
        simp only [Option.bind_eq_bind, Option.bind_eq_some] at h
        obtain ⟨p0, hp0, vp, hvp, insp, hinsp, vc, hvc, hrest⟩ := h
        obtain ⟨hacc, hall⟩ := ih _ hrest
        refine ⟨le_trans (le_max_left _ _) hacc, ?_⟩
        intro d hd hdl
        rcases List.mem_cons.mp hd with hd | hd
        · subst hd
          exact ⟨p0, vp, insp, vc, hp0, hvp, hinsp, hvc,
            le_trans (le_max_right _ _) hacc⟩
        · exact hall d hd hdl
      · rw [if_pos (by simpa using hord)] at h
        exact absurd h (by simp)
    · rw [if_neg hil] at h
      obtain ⟨hacc, hall⟩ := ih _ h
      refine ⟨hacc, ?_⟩
      intro d hd hdl
      rcases List.mem_cons.mp hd with hd | hd
      · subst hd; exact absurd hdl hil
      · exact hall d hd hdl

theorem compute_min_ii_spec (risc : RiscProgram) (s : VliwProgram)
    (c : Nat) (m : Int) (h : compute_min_ii_for_interloop_dep risc s c = some m) :
    1 ≤ m ∧
    ∀ ins, risc.program.get? c = some ins →
      ∀ dep ∈ ins.register_dependencies, dep.is_interloop = true →
        ∃ p0 vp insp vc, dep.producers_idx.get? 0 = some p0 ∧
          dict_get s.risc_pos_to_vliw_pos p0 = some vp ∧
          risc.program.get? p0 = some insp ∧
          dict_get s.risc_pos_to_vliw_pos c = some vc ∧
          (vp : Int) + (insp.latency : Int) - (vc : Int) ≤ m := by
  simp only [compute_min_ii_for_interloop_dep, Option.bind_eq_bind,
    Option.bind_eq_some] at h
  obtain ⟨ins, hins, hfold⟩ := h
  obtain ⟨hacc, hall⟩ := compute_min_ii_fold_spec risc s c _ _ _ hfold
  refine ⟨hacc, ?_⟩
  intro ins' hins' dep hd hdl
  rw [hins] at hins'
  injection hins' with hins'
  subst hins'
  exact hall dep hd hdl

theorem fix_interloop_max_spec (risc : RiscProgram) (s : VliwProgram) (stop : Nat) :
    ∀ (start : Nat) (acc r : Int),
      fix_interloop_max risc s start stop acc = some r →
      acc ≤ r ∧
      ∀ c, start ≤ c → c < stop →
        ∃ m, compute_min_ii_for_interloop_dep risc s c = some m ∧ m ≤ r := by
  suffices key : ∀ (n start : Nat) (acc r : Int), stop - start = n →
      fix_interloop_max risc s start stop acc = some r →
      acc ≤ r ∧
      ∀ c, start ≤ c → c < stop →
        ∃ m, compute_min_ii_for_interloop_dep risc s c = some m ∧ m ≤ r by
    intro start acc r h
    exact key (stop - start) start acc r rfl h
  intro n
  induction n with
  | zero =>
    intro start acc r heq h
    rw [fix_interloop_max, heq] at h
    injection h with h
    exact ⟨le_of_eq h, fun c hc1 hc2 => by omega⟩
  | succ n ih =>
    intro start acc r heq h
    have hlt : start < stop := by omega
    rw [fix_interloop_max, heq] at h
    simp only [fix_interloop_go, Option.bind_eq_bind, Option.bind_eq_some] at h
    obtain ⟨m, hm, hrest⟩ := h
    have hrest' : fix_interloop_max risc s (start + 1) stop (max acc m) = some r := by
      rw [fix_interloop_max, show stop - (start + 1) = n from by omega]
      exact hrest
    obtain ⟨hacc, hall⟩ := ih (start + 1) _ r (by omega) hrest'
    refine ⟨le_trans (le_max_left _ _) hacc, ?_⟩
    intro c hc1 hc2
    by_cases hcs : c = start
    · subst hcs
      exact ⟨m, hm, le_trans (le_max_right _ _) hacc⟩
    · exact hall c (by omega) hc2

/- ### Widening lemmas -/

theorem widen_step_spec (s s' : VliwProgram) (h : widen_step s = some s') :
    s'.end_loop = s.end_loop + 1 ∧ s'.start_loop = s.start_loop ∧
    s'.risc_pos_to_vliw_pos = s.risc_pos_to_vliw_pos ∧
    s'.ii = s.ii ∧ s'.no_stages = s.no_stages ∧
    s'.unavailable_slots = s.unavailable_slots := by
  simp only [widen_step, Option.bind_eq_bind, Option.bind_eq_some,
    Option.pure_def, Option.some.injEq] at h
  obtain ⟨b1, _, b2, _, p1, _, b3, _, p2, _, hs'⟩ := h
  subst hs'
  exact ⟨rfl, rfl, rfl, rfl, rfl, rfl⟩

theorem widen_iter_spec (ii : Int) :
    ∀ (fuel : Nat) (s s' : VliwProgram), widen_iter ii fuel s = some s' →
      s'.start_loop = s.start_loop ∧
      s'.risc_pos_to_vliw_pos = s.risc_pos_to_vliw_pos ∧
      s'.ii = s.ii ∧ s'.no_stages = s.no_stages ∧
      min ((s.start_loop : Int) + ii) ((s.end_loop : Int) + fuel) ≤ (s'.end_loop : Int) := by
  intro fuel
  induction fuel with
  | zero =>
    intro s s' h
    simp only [widen_iter, Option.some.injEq] at h
    subst h
    exact ⟨rfl, rfl, rfl, rfl, by omega⟩
  | succ fuel ih =>
    intro s s' h
    simp only [widen_iter] at h
    by_cases hc : (s.end_loop : Int) < (s.start_loop : Int) + ii
    · rw [if_pos hc] at h
      simp only [Option.bind_eq_bind, Option.bind_eq_some] at h
      obtain ⟨s₁, hs₁, hrest⟩ := h
      obtain ⟨he, hsl, hd, hi, hns, _⟩ := widen_step_spec s s₁ hs₁
      obtain ⟨hsl2, hd2, hi2, hns2, hmin⟩ := ih s₁ s' hrest
      refine ⟨hsl2.trans hsl, hd2.trans hd, hi2.trans hi, hns2.trans hns, ?_⟩
      rw [hsl] at hmin
      rw [he] at hmin
      push_cast at hmin ⊢
      omega
    · rw [if_neg hc] at h
      injection h with h
      subst h
      exact ⟨rfl, rfl, rfl, rfl, by omega⟩

/-- Everything C1 needs about `fix_interloop_dependencies`: the position map
is untouched and afterwards every BB1 instruction's required II fits in the
body span. -/
theorem fix_interloop_dependencies_spec (risc : RiscProgram) (s s' : VliwProgram)
    (h : fix_interloop_dependencies risc s = some s') :
    s'.start_loop = s.start_loop ∧
    s'.risc_pos_to_vliw_pos = s.risc_pos_to_vliw_pos ∧
    ∀ c, risc.BB1_start ≤ c → c < risc.BB2_start →
      ∃ m, compute_min_ii_for_interloop_dep risc s c = some m ∧
        m ≤ (s'.end_loop : Int) - (s'.start_loop : Int) := by
  simp only [fix_interloop_dependencies, Option.bind_eq_bind, Option.bind_eq_some] at h
  obtain ⟨iiv, hii, hwid⟩ := h
  obtain ⟨hacc, hall⟩ := fix_interloop_max_spec risc s risc.BB2_start risc.BB1_start _ _ hii
  obtain ⟨hsl, hd, _, _, hmin⟩ := widen_iter_spec iiv _ s s' hwid
  refine ⟨hsl, hd, ?_⟩
  intro c hc1 hc2
  obtain ⟨m, hm, hmr⟩ := hall c hc1 hc2
  refine ⟨m, hm, ?_⟩
  rw [hsl]
  have htn : ((s.start_loop : Int) + iiv - (s.end_loop : Int)).toNat =
      max ((s.start_loop : Int) + iiv - (s.end_loop : Int)) 0 := by
    omega
  omega

/- ### Pipeline composition facts -/

theorem dict_get_empty (k : Nat) : dict_get [] k = none := rfl

/-- All keys of the position map are below `n`. -/
def KeysLt (s : VliwProgram) (n : Nat) : Prop :=
  ∀ e ∈ s.risc_pos_to_vliw_pos, e.1 < n

theorem dict_get_none_of_KeysLt (s : VliwProgram) (n k : Nat)
    (hK : KeysLt s n) (hk : n ≤ k) : dict_get s.risc_pos_to_vliw_pos k = none :=
  (dict_get_none_iff _ _).mpr (fun e he => by have := hK e he; omega)

theorem KeysLt_of_some (s : VliwProgram) (n k v : Nat) (hK : KeysLt s n)
    (h : dict_get s.risc_pos_to_vliw_pos k = some v) : k < n :=
  hK (k, v) (dict_get_mem _ _ _ h)

theorem DepOk_congr (risc : RiscProgram) (s t : VliwProgram)
    (h : t.risc_pos_to_vliw_pos = s.risc_pos_to_vliw_pos)
    (hok : DepOk risc s) : DepOk risc t := by
  intro c vc ins hc hins dep hdep hset
  rw [h] at hc
  obtain ⟨p, vp, insp, h1, h2, h3, h4⟩ := hok c vc ins hc hins dep hdep hset
  exact ⟨p, vp, insp, h1, by rw [h]; exact h2, h3, h4⟩

/-- The interloop half of the schedule invariant: every interloop dependency
of a BB1 consumer reaches its consumer within one body span. -/
def InterloopBound (risc : RiscProgram) (s : VliwProgram) : Prop :=
  ∀ c ins dep, risc.BB1_start ≤ c → c < risc.BB2_start →
    risc.program.get? c = some ins → dep ∈ ins.register_dependencies →
    dep.is_interloop = true →
    ∃ p0 vp insp vc, dep.producers_idx.get? 0 = some p0 ∧
      dict_get s.risc_pos_to_vliw_pos p0 = some vp ∧
      risc.program.get? p0 = some insp ∧
      dict_get s.risc_pos_to_vliw_pos c = some vc ∧
      (vp : Int) + (insp.latency : Int) ≤
        (vc : Int) + ((s.end_loop : Int) - (s.start_loop : Int))

/-- The `loop` pipeline establishes both halves of the schedule invariant. -/
theorem generate_loop_schedule_invariant (risc : RiscProgram) (s : VliwProgram)
    (hbb : risc.BB1_start ≤ risc.BB2_start)
    (h : generate_loop_schedule risc = some s) :
    DepOk risc s ∧ InterloopBound risc s := by
  simp only [generate_loop_schedule, Option.bind_eq_bind, Option.bind_eq_some] at h
  obtain ⟨s0, h0, s1, h1, s2, h2, h3⟩ := h
  -- BB0 phase
  rw [schedule_loopless_instructions, if_pos rfl] at h0
  obtain ⟨_, _, _, _, _, _, hun0, hout0, hbound0, hcond0⟩ :=
    schedule_instruction_range_spec risc 0 none risc.BB1_start 0 VliwProgram.empty s0 h0
  obtain ⟨⟨ext0, hext0, hbext0⟩, hdep0⟩ := hcond0 (fun k _ _ => dict_get_empty k)
  have hok0 : DepOk risc s0 := hdep0 (fun c vc ins hc => by cases hc)
  have hkey0 : KeysLt s0 risc.BB1_start := by
    intro e he
    rw [hext0] at he
    rcases List.mem_append.mp he with he | he
    · exact (hbext0 e he).2.1
    · cases he
  -- BB1 phase with branch placement
  simp only [schedule_loop_instructions_without_interloop_dep, Option.bind_eq_bind,
    Option.bind_eq_some] at h1
  obtain ⟨s1a, h1a, ltag, hltag, prog1, hprog1, hs1⟩ := h1
  rw [schedule_loopless_instructions, if_neg (by decide), if_pos rfl] at h1a
  obtain ⟨_, _, _, _, _, _, _, hout1, hbound1, hcond1⟩ :=
    schedule_instruction_range_spec risc s0.program.length none risc.BB2_start
      risc.BB1_start s0 s1a h1a
  obtain ⟨⟨ext1, hext1, hbext1⟩, hdep1⟩ := hcond1
    (fun k hk1 _ => dict_get_none_of_KeysLt s0 risc.BB1_start k hkey0 hk1)
  have hok1a : DepOk risc s1a := hdep1 hok0
  have hkey1a : KeysLt s1a risc.BB2_start := by
    intro e he
    rw [hext1] at he
    rcases List.mem_append.mp he with he | he
    · exact (hbext1 e he).2.1
    · exact lt_of_lt_of_le (hkey0 e he) hbb
  simp only [Option.pure_def, Option.some.injEq] at hs1
  subst hs1
  -- fix_interloop_dependencies phase
  obtain ⟨hsl2, hd2, hfix2⟩ := fix_interloop_dependencies_spec risc _ s2 h2
  have hok2 : DepOk risc s2 := DepOk_congr risc _ s2 hd2 hok1a
  have hkey2 : KeysLt s2 risc.BB2_start := by
    intro e he
    rw [hd2] at he
    exact hkey1a e he
  -- BB2 phase
  rw [schedule_loopless_instructions, if_neg (by decide), if_neg (by decide),
    if_pos rfl] at h3
  obtain ⟨_, _, hsl3, hel3, _, _, _, hout3, hbound3, hcond3⟩ :=
    schedule_instruction_range_spec risc s2.program.length none risc.program.length
      risc.BB2_start s2 s h3
  obtain ⟨⟨ext2, hext2, hbext2⟩, hdep3⟩ := hcond3
    (fun k hk1 _ => dict_get_none_of_KeysLt s2 risc.BB2_start k hkey2 hk1)
  have hokF : DepOk risc s := hdep3 hok2
  refine ⟨hokF, ?_⟩
  intro c ins dep hc1 hc2 hins hdep hil
  obtain ⟨m, hm, hmb⟩ := hfix2 c hc1 hc2
  obtain ⟨_, hmall⟩ := compute_min_ii_spec risc _ c m hm
  obtain ⟨p0, vp, insp, vc, hp0, hvp, hinsp, hvc, hml⟩ := hmall ins hins dep hdep hil
  have hvp2 : dict_get s2.risc_pos_to_vliw_pos p0 = some vp := by
    rw [hd2]; exact hvp
  have hvc2 : dict_get s2.risc_pos_to_vliw_pos c = some vc := by
    rw [hd2]; exact hvc
  have hp0lt : p0 < risc.BB2_start := KeysLt_of_some s2 _ p0 vp hkey2 hvp2
  refine ⟨p0, vp, insp, vc, hp0, ?_, hinsp, ?_, ?_⟩
  · rw [hout3 p0 (Or.inl hp0lt)]; exact hvp2
  · rw [hout3 c (Or.inl hc2)]; exact hvc2
  · rw [hsl3, hel3]
    omega

/- ### Pipelined attempt lemmas -/

theorem VliwProgram.extEq (a b : VliwProgram)
    (h1 : a.program = b.program)
    (h2 : a.risc_pos_to_vliw_pos = b.risc_pos_to_vliw_pos)
    (h3 : a.unavailable_slots = b.unavailable_slots)
    (h4 : a.no_stages = b.no_stages) (h5 : a.ii = b.ii)
    (h6 : a.start_loop = b.start_loop) (h7 : a.end_loop = b.end_loop) : a = b := by
  cases a
  cases b
  simp_all

theorem pip_check_false_spec (risc : RiscProgram) (s : VliwProgram) (ii : Nat)
    (stop : Nat) :
    ∀ start, pip_check risc s ii start stop = some false →
      ∀ c, start ≤ c → c < stop →
        ∃ m, compute_min_ii_for_interloop_dep risc s c = some m ∧ m ≤ (ii : Int) := by
  suffices key : ∀ (n start : Nat), stop - start = n →
      pip_check risc s ii start stop = some false →
      ∀ c, start ≤ c → c < stop →
        ∃ m, compute_min_ii_for_interloop_dep risc s c = some m ∧ m ≤ (ii : Int) by
    intro start h
    exact key (stop - start) start rfl h
  intro n
  induction n with
  | zero =>
    intro start heq h c hc1 hc2
    omega
  | succ n ih =>
    intro start heq h c hc1 hc2
    rw [pip_check, heq] at h
    simp only [pip_check_go, Option.bind_eq_bind, Option.bind_eq_some] at h
    obtain ⟨m, hm, hrest⟩ := h
    by_cases hii : (ii : Int) < m
    · rw [if_pos hii] at hrest
      exact absurd hrest (by simp)
    · rw [if_neg hii] at hrest
      have hrest' : pip_check risc s ii (start + 1) stop = some false := by
        rw [pip_check, show stop - (start + 1) = n from by omega]
        exact hrest
      by_cases hcs : c = start
      · subst hcs
        exact ⟨m, hm, by omega⟩
      · exact ih (start + 1) (by omega) hrest' c (by omega) hc2

theorem find_nonempty_go_lt (prog : List VliwInstruction) :
    ∀ (n i r : Nat), find_nonempty_go prog n i = some r → r < prog.length := by
  intro n
  induction n with
  | zero =>
    intro i r h
    cases h
  | succ n ih =>
    intro i r h
    simp only [find_nonempty_go, Option.bind_eq_bind, Option.bind_eq_some] at h
    obtain ⟨b, hb, hrest⟩ := h
    by_cases he : b.is_empty = true
    · rw [if_pos he] at hrest
      exact ih (i + 1) r hrest
    · rw [if_neg he] at hrest
      injection hrest with hrest
      subst hrest
      exact (List.get?_eq_some.mp hb).1

theorem find_nonempty_from_lt (prog : List VliwInstruction) (i r : Nat)
    (h : find_nonempty_from prog i = some r) : r < prog.length :=
  find_nonempty_go_lt prog _ i r h

theorem set_branch_on_last_length (prog prog' : List VliwInstruction) (text : String)
    (h : set_branch_on_last prog text = some prog') : prog'.length = prog.length := by
  unfold set_branch_on_last at h
  rcases hl : prog.getLast? with _ | last <;> rw [hl] at h
  · cases h
  · injection h with h
    rw [← h, List.length_set]

theorem pad_to_multiple (a k : Nat) (hk : 0 < k) (ha : 0 < a) :
    k ≤ a + (if a % k = 0 then 0 else k - a % k) := by
  by_cases hr : a % k = 0
  · rw [if_pos hr]
    have h2 := Nat.le_of_dvd ha (Nat.dvd_of_mod_eq_zero hr)
    omega
  · rw [if_neg hr]
    have h1 : a % k < k := Nat.mod_lt a hk
    have h2 : a % k ≤ a := Nat.mod_le a k
    omega

/-- A rejected pipelined attempt restores the scheduler state exactly,
provided the pre-state is one the driver can reach: position values below the
program length, keys below BB1, and an empty reservation set. -/
theorem schedule_loop_pip_rollback (risc : RiscProgram) (s s' : VliwProgram) (ii : Nat)
    (hval : ∀ e ∈ s.risc_pos_to_vliw_pos, e.2 < s.program.length)
    (hkey : KeysLt s risc.BB1_start)
    (hun : s.unavailable_slots = [])
    (h : schedule_loop_pip_instructions risc s ii = some (false, s')) :
    s' = s := by
  simp only [schedule_loop_pip_instructions, Option.bind_eq_bind, Option.bind_eq_some] at h
  obtain ⟨s₁, h₁, viol, hviol, hrest⟩ := h
  obtain ⟨hlen1, hget1, hsl1, hel1, hii1, hns1, _, hout1, hbound1, hcond1⟩ :=
    schedule_instruction_range_spec risc s.program.length (some ii) risc.BB2_start
      risc.BB1_start s s₁ h₁
  obtain ⟨⟨ext1, hext1, hbext1⟩, _⟩ := hcond1
    (fun k hk1 _ => dict_get_none_of_KeysLt s risc.BB1_start k hkey hk1)
  cases viol with
  | true =>
    rw [if_pos rfl] at hrest
    simp only [Option.pure_def, Option.some.injEq, Prod.mk.injEq] at hrest
    obtain ⟨_, hrest⟩ := hrest
    rw [← hrest]
    refine VliwProgram.extEq _ _ ?_ ?_ ?_ hns1 hii1 hsl1 hel1
    · show s₁.program.take s.program.length = s.program
      apply List.ext_get?
      intro j
      by_cases hj : j < s.program.length
      · rw [List.get?_take hj, hget1 j hj hj]
      · have h1 : (s₁.program.take s.program.length).length ≤ j := by
          rw [List.length_take]
          omega
        rw [List.get?_eq_none.mpr h1, List.get?_eq_none.mpr (by omega)]
    · show s₁.risc_pos_to_vliw_pos.filter (fun e => e.2 < s.program.length) =
        s.risc_pos_to_vliw_pos
      rw [hext1, List.filter_append]
      have hx : ext1.filter (fun e => decide (e.2 < s.program.length)) = [] := by
        rw [List.filter_eq_nil]
        intro e he
        have := (hbext1 e he).2.2.1
        simp only [decide_eq_true_eq]
        omega
      have hy : s.risc_pos_to_vliw_pos.filter
          (fun e => decide (e.2 < s.program.length)) = s.risc_pos_to_vliw_pos := by
        rw [List.filter_eq_self]
        intro e he
        simp only [decide_eq_true_eq]
        exact hval e he
      rw [hx, hy, List.nil_append]
    · show ([] : List (Nat × String)) = s.unavailable_slots
      rw [hun]
  | false =>
    rw [if_neg (by simp)] at hrest
    simp only [Option.bind_eq_bind, Option.bind_eq_some] at hrest
    obtain ⟨ltag, hltag, hrest⟩ := hrest
    by_cases hz : ii = 0
    · rw [if_pos hz] at hrest
      cases hrest
    · rw [if_neg hz] at hrest
      simp only [Option.bind_eq_bind, Option.bind_eq_some, Option.pure_def,
        Option.some.injEq, Prod.mk.injEq] at hrest
      obtain ⟨prog, hprog, hfalse, _⟩ := hrest
      cases hfalse

/-- What a successful pipelined attempt guarantees. -/
theorem schedule_loop_pip_success_spec (risc : RiscProgram) (s s' : VliwProgram)
    (ii : Nat) (h : schedule_loop_pip_instructions risc s ii = some (true, s')) :
    ∃ s₁, schedule_instruction_range risc s.program.length (some ii)
        risc.BB1_start risc.BB2_start s = some s₁ ∧
      s'.risc_pos_to_vliw_pos = s₁.risc_pos_to_vliw_pos ∧
      (∀ c, risc.BB1_start ≤ c → c < risc.BB2_start →
        ∃ m, compute_min_ii_for_interloop_dep risc s₁ c = some m ∧ m ≤ (ii : Int)) ∧
      s'.start_loop ≤ s'.end_loop ∧ ii ≤ s'.end_loop - s'.start_loop := by
  simp only [schedule_loop_pip_instructions, Option.bind_eq_bind, Option.bind_eq_some] at h
  obtain ⟨s₁, h₁, viol, hviol, hrest⟩ := h
  cases viol with
  | true =>
    rw [if_pos rfl] at hrest
    simp only [Option.pure_def, Option.some.injEq, Prod.mk.injEq] at hrest
    exact absurd hrest.1 (by simp)
  | false =>
    rw [if_neg (by simp)] at hrest
    simp only [Option.bind_eq_bind, Option.bind_eq_some] at hrest
    obtain ⟨ltag, hltag, hrest⟩ := hrest
    by_cases hz : ii = 0
    · rw [if_pos hz] at hrest
      cases hrest
    · rw [if_neg hz] at hrest
      simp only [Option.bind_eq_bind, Option.bind_eq_some, Option.pure_def,
        Option.some.injEq, Prod.mk.injEq] at hrest
      obtain ⟨prog, hprog, _, hs'⟩ := hrest
      have hltlen : ltag < s₁.program.length := find_nonempty_from_lt _ _ _ hltag
      have hplen := set_branch_on_last_length _ _ _ hprog
      rw [List.length_append, List.length_replicate] at hplen
      refine ⟨s₁, h₁, by rw [← hs'], ?_, ?_, ?_⟩
      · exact pip_check_false_spec risc s₁ ii risc.BB2_start risc.BB1_start hviol
      · rw [← hs']
        show ltag ≤ prog.length
        omega
      · rw [← hs']
        show ii ≤ prog.length - ltag
        have hpad := pad_to_multiple (s₁.program.length - ltag) ii
          (Nat.pos_of_ne_zero hz) (by omega)
        omega

/-- The II search only returns a state produced by a successful attempt from
the (exactly restored) post-BB0 state. -/
theorem pip_search_spec (risc : RiscProgram) :
    ∀ (fuel ii : Nat) (s s' : VliwProgram),
      (∀ e ∈ s.risc_pos_to_vliw_pos, e.2 < s.program.length) →
      KeysLt s risc.BB1_start →
      s.unavailable_slots = [] →
      pip_search risc ii fuel s = some s' →
      ∃ ii', schedule_loop_pip_instructions risc s ii' = some (true, s') := by
  intro fuel
  induction fuel with
  | zero =>
    intro ii s s' _ _ _ h
    cases h
  | succ fuel ih =>
    intro ii s s' hval hkey hun h
    rw [pip_search] at h
    by_cases hcap : 1000 < ii
    · rw [if_pos hcap] at h
      cases h
    · rw [if_neg hcap] at h
      simp only [Option.bind_eq_bind, Option.bind_eq_some] at h
      obtain ⟨⟨ok, s₁⟩, hatt, hrest⟩ := h
      cases ok with
      | true =>
        rw [if_pos rfl] at hrest
        injection hrest with hrest
        subst hrest
        exact ⟨ii, hatt⟩
      | false =>
        rw [if_neg (by simp)] at hrest
        have hres : s₁ = s :=
          schedule_loop_pip_rollback risc s s₁ ii hval hkey hun hatt
        subst hres
        exact ih (ii + 1) s₁ s' hval hkey hun hrest

/-- The pipelined driver establishes both halves of the schedule invariant. -/
theorem generate_loop_pip_schedule_invariant (risc : RiscProgram) (s : VliwProgram)
    (hbb : risc.BB1_start ≤ risc.BB2_start)
    (h : generate_loop_pip_schedule risc = some s) :
    DepOk risc s ∧ InterloopBound risc s := by
  rw [generate_loop_pip_schedule] at h
  by_cases hemp : risc.BB1_start = risc.BB2_start
  · rw [if_pos hemp] at h
    exact generate_loop_schedule_invariant risc s hbb h
  rw [if_neg hemp] at h
  simp only [Option.bind_eq_bind, Option.bind_eq_some] at h
  obtain ⟨s0, h0, lb, hlb, sp, hsp, h3⟩ := h
  -- BB0 phase
  rw [schedule_loopless_instructions, if_pos rfl] at h0
  obtain ⟨_, _, _, _, _, _, hun0, hout0, hbound0, hcond0⟩ :=
    schedule_instruction_range_spec risc 0 none risc.BB1_start 0 VliwProgram.empty s0 h0
  obtain ⟨⟨ext0, hext0, hbext0⟩, hdep0⟩ := hcond0 (fun k _ _ => dict_get_empty k)
  have hok0 : DepOk risc s0 := hdep0 (fun c vc ins hc => by cases hc)
  have hkey0 : KeysLt s0 risc.BB1_start := by
    intro e he
    rw [hext0] at he
    rcases List.mem_append.mp he with he | he
    · exact (hbext0 e he).2.1
    · cases he
  have hval0 : ∀ e ∈ s0.risc_pos_to_vliw_pos, e.2 < s0.program.length :=
    hbound0 (fun e he => by cases he)
  -- the II search
  obtain ⟨ii', hsucc⟩ :=
    pip_search_spec risc _ lb s0 sp hval0 hkey0 (hun0 rfl) hsp
  obtain ⟨s₁, h₁, hdsp, hmin, hse, hiile⟩ :=
    schedule_loop_pip_success_spec risc s0 sp ii' hsucc
  obtain ⟨_, _, _, _, _, _, _, hout1, hbound1, hcond1⟩ :=
    schedule_instruction_range_spec risc s0.program.length (some ii') risc.BB2_start
      risc.BB1_start s0 s₁ h₁
  obtain ⟨⟨ext1, hext1, hbext1⟩, hdep1⟩ := hcond1
    (fun k hk1 _ => dict_get_none_of_KeysLt s0 risc.BB1_start k hkey0 hk1)
  have hok1 : DepOk risc s₁ := hdep1 hok0
  have hoksp : DepOk risc sp := DepOk_congr risc s₁ sp hdsp hok1
  have hkeysp : KeysLt sp risc.BB2_start := by
    intro e he
    rw [hdsp, hext1] at he
    rcases List.mem_append.mp he with he | he
    · exact (hbext1 e he).2.1
    · exact lt_of_lt_of_le (hkey0 e he) hbb
  -- BB2 phase
  rw [schedule_loopless_instructions, if_neg (by decide), if_neg (by decide),
    if_pos rfl] at h3
  obtain ⟨_, _, hsl3, hel3, _, _, _, hout3, hbound3, hcond3⟩ :=
    schedule_instruction_range_spec risc sp.program.length none risc.program.length
      risc.BB2_start sp s h3
  obtain ⟨⟨ext2, hext2, hbext2⟩, hdep3⟩ := hcond3
    (fun k hk1 _ => dict_get_none_of_KeysLt sp risc.BB2_start k hkeysp hk1)
  have hokF : DepOk risc s := hdep3 hoksp
  refine ⟨hokF, ?_⟩
  intro c ins dep hc1 hc2 hins hdep hil
  obtain ⟨m, hm, hmb⟩ := hmin c hc1 hc2
  obtain ⟨_, hmall⟩ := compute_min_ii_spec risc _ c m hm
  obtain ⟨p0, vp, insp, vc, hp0, hvp, hinsp, hvc, hml⟩ := hmall ins hins dep hdep hil
  have hvpsp : dict_get sp.risc_pos_to_vliw_pos p0 = some vp := by
    rw [hdsp]; exact hvp
  have hvcsp : dict_get sp.risc_pos_to_vliw_pos c = some vc := by
    rw [hdsp]; exact hvc
  have hp0lt : p0 < risc.BB2_start := KeysLt_of_some sp _ p0 vp hkeysp hvpsp
  refine ⟨p0, vp, insp, vc, hp0, ?_, hinsp, ?_, ?_⟩
  · rw [hout3 p0 (Or.inl hp0lt)]; exact hvpsp
  · rw [hout3 c (Or.inl hc2)]; exact hvcsp
  · rw [hsl3, hel3]
    omega

/- ### Claim C1 -/

/-- The claim's first clause: local, loop-invariant and post-loop dependencies
separate producer and consumer by at least the producer's latency. -/
def LocalLatencyClaim (risc : RiscProgram) (s : VliwProgram) : Prop :=
  ∀ c vc ins dep, dict_get s.risc_pos_to_vliw_pos c = some vc →
    risc.program.get? c = some ins → dep ∈ ins.register_dependencies →
    (dep.is_local = true ∨ dep.is_loop_invariant = true ∨ dep.is_post_loop = true) →
    ∃ p vp insp, dep.producers_idx.getLast? = some p ∧
      dict_get s.risc_pos_to_vliw_pos p = some vp ∧
      risc.program.get? p = some insp ∧ vp + insp.latency ≤ vc

/-- The claim's second clause: an interloop dependency whose first listed
producer is in BB1 reaches its consumer within `II = end_loop - start_loop`. -/
def InterloopLatencyClaim (risc : RiscProgram) (s : VliwProgram) : Prop :=
  ∀ c ins dep p0, risc.program.get? c = some ins →
    dep ∈ ins.register_dependencies → dep.is_interloop = true →
    dep.producers_idx.get? 0 = some p0 →
    risc.BB1_start ≤ p0 → p0 < risc.BB2_start →
    ∃ vp insp vc, dict_get s.risc_pos_to_vliw_pos p0 = some vp ∧
      risc.program.get? p0 = some insp ∧
      dict_get s.risc_pos_to_vliw_pos c = some vc ∧
      (vp : Int) + (insp.latency : Int) ≤
        (vc : Int) + ((s.end_loop : Int) - (s.start_loop : Int))

/-- C1: in every VLIW schedule the program produces (the `loop` pipeline or
the pipelined driver, before body compression), each local, loop-invariant or
post-loop dependency satisfies `bundle(last producer) + latency ≤
bundle(consumer)`, and each interloop dependency whose first listed producer
is in BB1 satisfies `bundle(producer) + latency ≤ bundle(consumer) + II` with
`II = end_loop - start_loop`.  The hypotheses say the block cut points are
ordered and that interloop dependencies only annotate BB1 consumers, as the
dependency analysis guarantees. -/
theorem c1_schedule_latency_invariant (risc : RiscProgram) (s : VliwProgram)
    (hbb : risc.BB1_start ≤ risc.BB2_start)
    (hil : ∀ c ins dep, risc.program.get? c = some ins →
      dep ∈ ins.register_dependencies → dep.is_interloop = true →
      risc.BB1_start ≤ c ∧ c < risc.BB2_start)
    (h : generate_loop_schedule risc = some s ∨ generate_loop_pip_schedule risc = some s) :
    LocalLatencyClaim risc s ∧ InterloopLatencyClaim risc s := by
  have hinv : DepOk risc s ∧ InterloopBound risc s := by
    rcases h with h | h
    · exact generate_loop_schedule_invariant risc s hbb h
    · exact generate_loop_pip_schedule_invariant risc s hbb h
  obtain ⟨hok, hib⟩ := hinv
  constructor
  · intro c vc ins dep hc hins hdep hkind
    refine hok c vc ins hc hins dep hdep ?_
    simp only [dep_is_set, Bool.or_eq_true]
    rcases hkind with hk | hk | hk <;> simp [hk]
  · intro c ins dep p0 hins hdep hflag hp0 _ _
    obtain ⟨hcl, hcr⟩ := hil c ins dep hins hdep hflag
    obtain ⟨p0', vp, insp, vc, hp0', hvp, hinsp, hvc, hle⟩ :=
      hib c ins dep hcl hcr hins hdep hflag
    rw [hp0] at hp0'
    injection hp0' with hp0'
    subst hp0'
    exact ⟨vp, insp, vc, hvp, hinsp, hvc, by omega⟩

/-- Concrete program for the C1 witness: a BB0 producer, a BB1 instruction
with an interloop dependency on itself and the BB0 producer, and a BB2
instruction with a post-loop dependency. -/
def c1_demo_program : RiscProgram :=
  { program := [
      ⟨some 1, [], true, false, false, "P0", none⟩,
      ⟨some 1, [⟨"1", [1, 0], false, true, false, false⟩], true, false, false, "B1", none⟩,
      ⟨some 2, [⟨"1", [1], false, false, false, true⟩], true, false, false, "C2", none⟩],
    BB1_start := 1, BB2_start := 2 }

/-- Witness for C1: the `loop` pipeline schedules `c1_demo_program` and both
clauses hold for the produced schedule. -/
theorem c1_schedule_latency_invariant_witness :
    ∃ s, generate_loop_schedule c1_demo_program = some s ∧
      LocalLatencyClaim c1_demo_program s ∧ InterloopLatencyClaim c1_demo_program s := by
  have hsome : (generate_loop_schedule c1_demo_program).isSome = true := by decide
  obtain ⟨s, hs⟩ := Option.isSome_iff_exists.mp hsome
  have hil : ∀ c ins dep, c1_demo_program.program.get? c = some ins →
      dep ∈ ins.register_dependencies → dep.is_interloop = true →
      c1_demo_program.BB1_start ≤ c ∧ c < c1_demo_program.BB2_start := by
    intro c ins dep hc hdep hflag
    match c with
    | 0 =>
      injection hc with hc
      subst hc
      simp at hdep
    | 1 => exact ⟨le_rfl, by decide⟩
    | 2 =>
      injection hc with hc
      subst hc
      simp at hdep
      subst hdep
      cases hflag
    | (n + 3) => exact absurd hc (by simp [c1_demo_program])
  exact ⟨s, hs, c1_schedule_latency_invariant c1_demo_program s (by decide) hil (Or.inl hs)⟩

/- ### Claim C6 -/

/-- C6: a rejected pipelined attempt is atomic: the rejection returns exactly
the pre-attempt state (bundles, position map and reservation set all equal),
and the II search then proceeds with `II + 1` from that restored state.  The
hypotheses describe any state the driver can reach after BB0 scheduling:
position values below the program length, keys below BB1, empty reservation
set. -/
theorem c6_pip_rejection_rollback (risc : RiscProgram) (s s' : VliwProgram) (ii : Nat)
    (hval : ∀ e ∈ s.risc_pos_to_vliw_pos, e.2 < s.program.length)
    (hkey : KeysLt s risc.BB1_start)
    (hun : s.unavailable_slots = [])
    (h : schedule_loop_pip_instructions risc s ii = some (false, s')) :
    s' = s ∧
    ∀ fuel, ¬ 1000 < ii →
      pip_search risc ii (fuel + 1) s = pip_search risc (ii + 1) fuel s := by
  have hres := schedule_loop_pip_rollback risc s s' ii hval hkey hun h
  refine ⟨hres, ?_⟩
  intro fuel hcap
  rw [pip_search, if_neg hcap, h, hres]
  rfl

/-- Concrete program for the C6 witness: a BB1 multiply with an interloop
dependency on itself (latency 3) cannot fit II = 1. -/
def c6_demo_program : RiscProgram :=
  { program := [
      ⟨some 1, [], true, false, false, "P0", none⟩,
      ⟨some 1, [⟨"1", [1, 0], false, true, false, false⟩], false, true, false, "B1", none⟩],
    BB1_start := 1, BB2_start := 2 }

/-- The post-BB0 state for the C6 witness. -/
def c6_demo_state : VliwProgram :=
  { program := [⟨some ⟨some 1, "P0", some 0⟩, none, none, none, none⟩],
    risc_pos_to_vliw_pos := [(0, 0)],
    unavailable_slots := [], no_stages := 0, ii := 0, start_loop := 0, end_loop := 0 }

/-- Witness for C6: the attempt at II = 1 on `c6_demo_program` is rejected,
the state is restored exactly, and the search retries at II = 2. -/
theorem c6_pip_rejection_rollback_witness :
    schedule_loop_pip_instructions c6_demo_program c6_demo_state 1 =
      some (false, c6_demo_state) ∧
    pip_search c6_demo_program 1 6 c6_demo_state =
      pip_search c6_demo_program 2 5 c6_demo_state := by
  have h : schedule_loop_pip_instructions c6_demo_program c6_demo_state 1 =
      some (false, c6_demo_state) := by decide
  have hmain := c6_pip_rejection_rollback c6_demo_program c6_demo_state c6_demo_state 1
    (by intro e he; simp only [c6_demo_state, List.mem_singleton] at he; subst he; decide)
    (by intro e he; simp only [c6_demo_state, List.mem_singleton] at he; subst he; decide)
    rfl h
  exact ⟨h, hmain.2 5 (by omega)⟩

/- ### Claim C2 -/

/-- Concrete program for C2: one BB0 ALU op, then a BB1 ALU op followed by a
dependent multiply, which pipelines at II = 1 with S = 2 stages. -/
def c2_demo_program : RiscProgram :=
  { program := [
      ⟨some 3, [], true, false, false, "B0", none⟩,
      ⟨some 1, [], true, false, false, "A", none⟩,
      ⟨some 2, [⟨"1", [1], true, false, false, false⟩], false, true, false, "B", none⟩],
    BB1_start := 1, BB2_start := 3 }

/-- C2: the first half of the claim holds at this input — the pipelined
driver records `end_loop - start_loop = 2 = S * II` with S = 2, II = 1 — but the
second half fails: `compress_loop_body` replaces the body with the II
compressed bundles (the program shrinks to 3 bundles) yet never reassigns
`end_loop`, which stays at `start_loop + S * II = 4` instead of the claimed
`start_loop + II = 3`. -/
theorem c2_compress_keeps_stale_end_loop :
    (generate_loop_pip_schedule c2_demo_program).map
      (fun s => (s.start_loop, s.end_loop, s.ii, s.no_stages, s.program.length)) =
      some (1, 3, 1, 2, 3) ∧
    ((generate_loop_pip_schedule c2_demo_program).bind
      (compress_loop_body c2_demo_program)).map
      (fun s => (s.start_loop, s.end_loop, s.ii, s.no_stages, s.program.length)) =
      some (2, 4, 1, 2, 3) := by
  decide

/- ### Claim C9 -/

/-- C9: the claim says a pipelined request on a loop-free program silently
produces the `loop` schedule.  The program parses, but both the `loop`
pipeline and the pipelined driver's fallback crash instead of producing a
schedule: with an empty BB1, `schedule_loop_instructions_without_interloop_dep`
indexes `program[loop_tag]` one past the end of the bundle list.  (In
scheduler.py the guard itself also reads `risc.BB1`, an attribute
`RiscProgram` does not define.) -/
theorem c9_missing_loop_fallback_crashes :
    (load_from_list ["mov x1, 10"]).isSome = true ∧
    (load_from_list ["mov x1, 10"]).bind generate_loop_schedule = none ∧
    (load_from_list ["mov x1, 10"]).bind generate_loop_pip_schedule = none := by
  decide

/- ### register_renaming.py: lemmas -/

theorem sdict_get_set_self (d : List (String × Option Int)) (k : String)
    (v : Option Int) : sdict_get (sdict_set d k v) k = some v := by
  simp [sdict_get, sdict_set, List.find?]

theorem sfind?_eraseP_key (d : List (String × Option Int)) (k k' : String)
    (h : k' ≠ k) :
    (d.eraseP (fun e => e.1 == k)).find? (fun e => e.1 == k') =
      d.find? (fun e => e.1 == k') := by
  induction d with
  | nil => rfl
  | cons a rest ih =>
    by_cases ha : a.1 = k
    · rw [List.eraseP_cons_of_pos (by simp [ha]),
        List.find?_cons_of_neg _ (by simp [ha]; exact fun hc => h hc.symm)]
    · rw [List.eraseP_cons_of_neg (by simp [ha])]
      by_cases hk' : a.1 = k'
      · rw [List.find?_cons_of_pos _ (by simp [hk']),
          List.find?_cons_of_pos _ (by simp [hk'])]
      · rw [List.find?_cons_of_neg _ (by simp [hk']),
          List.find?_cons_of_neg _ (by simp [hk']), ih]

theorem sdict_get_set_ne (d : List (String × Option Int)) (k : String)
    (v : Option Int) (k' : String) (h : k' ≠ k) :
    sdict_get (sdict_set d k v) k' = sdict_get d k' := by
  simp only [sdict_get, sdict_set]
  rw [List.find?_cons_of_neg _ (by simp; exact fun hc => h hc.symm),
    sfind?_eraseP_key d k k' h]

theorem movs_add_mem (movs : List Mov) (m m' : Mov) (h : m ∈ movs) :
    m ∈ movs_add movs m' := by
  unfold movs_add
  split
  · exact h
  · exact List.mem_append_left _ h

theorem movs_add_self (movs : List Mov) (m : Mov) : m ∈ movs_add movs m := by
  unfold movs_add
  split
  · assumption
  · exact List.mem_append_right _ (by simp)

/-- Reading and then writing the same Python list index touch the same
physical position. -/
theorem pyListSet_of_get {α : Type} (l : List α) (i : Int) (x a : α)
    (hg : pyListGet l i = some x) :
    ∃ k, k < l.length ∧ l.get? k = some x ∧ pyListSet l i a = some (l.set k a) := by
  unfold pyListGet at hg
  unfold pyListSet
  by_cases hi : i < 0
  · rw [if_pos hi] at hg ⊢
    by_cases hj : (l.length : Int) + i < 0
    · rw [if_pos hj] at hg; exact absurd hg (by simp)
    · rw [if_neg hj] at hg ⊢
      refine ⟨((l.length : Int) + i).toNat, ?_, hg, ?_⟩
      · exact (List.get?_eq_some.mp hg).choose
      · rw [if_pos (List.get?_eq_some.mp hg).choose]
  · rw [if_neg hi] at hg ⊢
    refine ⟨i.toNat, (List.get?_eq_some.mp hg).choose, hg, ?_⟩
    rw [if_pos (List.get?_eq_some.mp hg).choose]

/-- Every renamed destination already assigned lies in `[lo, hi)`. -/
def RenamedBounded (risc : RiscProgram) (lo hi : Int) : Prop :=
  ∀ i a, risc.program.get? i = some a →
    ∀ v, a.renamed_dest_register = some v → lo ≤ v ∧ v < hi

/-- No two instructions carry the same assigned renamed destination. -/
def RenamedDistinct (risc : RiscProgram) : Prop :=
  ∀ i j a b, i ≠ j → risc.program.get? i = some a →
    risc.program.get? j = some b →
    ∀ va vb, a.renamed_dest_register = some va →
      b.renamed_dest_register = some vb → va ≠ vb

theorem RenamedBounded.mono (risc : RiscProgram) (lo hi hi' : Int)
    (h : RenamedBounded risc lo hi) (hle : hi ≤ hi') :
    RenamedBounded risc lo hi' := by
  intro i a hg v hv
  exact ⟨(h i a hg v hv).1, lt_of_lt_of_le (h i a hg v hv).2 hle⟩

theorem get?_set_self {α : Type} (l : List α) (k : Nat) (a : α)
    (h : k < l.length) : (l.set k a).get? k = some a := by
  rw [List.get?_eq_getElem?, List.getElem?_set_self']
  simp [List.getElem?_eq_getElem h]

theorem get?_set_ne {α : Type} (l : List α) (i k : Nat) (a : α) (h : i ≠ k) :
    (l.set k a).get? i = l.get? i := by
  rw [List.get?_eq_getElem?, List.get?_eq_getElem?, List.getElem?_set_ne (by omega)]

/-- What one destination-renaming step does in the non-rotating case: nothing,
or assign the current counter to one not-yet-renamed instruction and advance
the counter by exactly 1. -/
theorem rename_unit_dest_false_spec (ns : Nat) (risc : RiscProgram)
    (nonrot rot : Int) (u : Option VliwInstructionUnit) (risc' : RiscProgram)
    (nonrot' rot' : Int)
    (h : rename_unit_dest ns false (risc, nonrot, rot) u = some (risc', nonrot', rot')) :
    rot' = rot ∧ nonrot ≤ nonrot' ∧
    ((risc' = risc ∧ nonrot' = nonrot) ∨
      (nonrot' = nonrot + 1 ∧ ∃ k x, k < risc.program.length ∧
        risc.program.get? k = some x ∧ x.renamed_dest_register = none ∧
        risc'.program = risc.program.set k
          { x with renamed_dest_register := some nonrot } ∧
        risc'.BB1_start = risc.BB1_start ∧ risc'.BB2_start = risc.BB2_start)) := by
  cases u with
  | none =>
    simp only [rename_unit_dest, Option.some.injEq, Prod.mk.injEq] at h
    obtain ⟨h1, h2, h3⟩ := h
    exact ⟨h3.symm, le_of_eq h2, Or.inl ⟨h1.symm, h2.symm⟩⟩
  | some unit =>
    cases hdest : unit.dest_register with
    | none =>
      simp only [rename_unit_dest, hdest, Option.some.injEq, Prod.mk.injEq] at h
      obtain ⟨h1, h2, h3⟩ := h
      exact ⟨h3.symm, le_of_eq h2, Or.inl ⟨h1.symm, h2.symm⟩⟩
    | some d =>
      simp only [rename_unit_dest, hdest] at h
      by_cases hd : d = -1
      · rw [if_pos hd] at h
        simp only [Option.some.injEq, Prod.mk.injEq] at h
        obtain ⟨h1, h2, h3⟩ := h
        exact ⟨h3.symm, le_of_eq h2, Or.inl ⟨h1.symm, h2.symm⟩⟩
      · rw [if_neg hd] at h
        simp only [Bool.false_eq_true, if_false, Option.bind_eq_bind,
          Option.bind_eq_some] at h
        obtain ⟨ridx, hridx, h⟩ := h
        obtain ⟨ins, hins, h⟩ := h
        cases hren : ins.renamed_dest_register with
        | some w =>
          simp only [hren] at h
          exact Option.noConfusion h
        | none =>
          simp only [hren, Option.bind_eq_bind, Option.bind_eq_some] at h
          obtain ⟨prog, hprog, h⟩ := h
          simp only [Option.some.injEq, Prod.mk.injEq] at h
          obtain ⟨h1, h2, h3⟩ := h
          obtain ⟨k, hk, hgk, hset⟩ :=
            pyListSet_of_get risc.program ridx ins
              { ins with renamed_dest_register := some nonrot } hins
          rw [hprog] at hset
          refine ⟨h3.symm, by omega, Or.inr ⟨h2.symm, k, ins, hk, hgk, hren, ?_, ?_, ?_⟩⟩
          · rw [← h1]
            exact Option.some.inj hset
          · rw [← h1]
          · rw [← h1]

theorem rename_unit_dest_false_inv (ns : Nat) (risc : RiscProgram)
    (nonrot rot : Int) (u : Option VliwInstructionUnit) (risc' : RiscProgram)
    (nonrot' rot' : Int)
    (h : rename_unit_dest ns false (risc, nonrot, rot) u = some (risc', nonrot', rot'))
    (h1 : 1 ≤ nonrot) (hB : RenamedBounded risc 1 nonrot)
    (hD : RenamedDistinct risc) :
    1 ≤ nonrot' ∧ RenamedBounded risc' 1 nonrot' ∧ RenamedDistinct risc' := by
  obtain ⟨-, hle, hcase⟩ :=
    rename_unit_dest_false_spec ns risc nonrot rot u risc' nonrot' rot' h
  rcases hcase with ⟨heq, hn⟩ | ⟨hn, k, x, hk, hgk, hxnone, hsetp, -, -⟩
  · subst heq; subst hn; exact ⟨h1, hB, hD⟩
  · refine ⟨by omega, ?_, ?_⟩
    · intro i a hg v hv
      rw [hsetp] at hg
      by_cases hik : i = k
      · subst hik
        rw [get?_set_self _ _ _ hk] at hg
        have ha : a = { x with renamed_dest_register := some nonrot } :=
          (Option.some.inj hg).symm
        subst ha
        simp only at hv
        have hvn : v = nonrot := (Option.some.inj hv).symm
        omega
      · rw [get?_set_ne _ _ _ _ hik] at hg
        have := hB i a hg v hv
        omega
    · intro i j a b hij hgi hgj va vb hva hvb
      rw [hsetp] at hgi hgj
      by_cases hik : i = k
      · subst hik
        rw [get?_set_self _ _ _ hk] at hgi
        have ha : a = { x with renamed_dest_register := some nonrot } :=
          (Option.some.inj hgi).symm
        subst ha
        simp only at hva
        have hva' : va = nonrot := (Option.some.inj hva).symm
        rw [get?_set_ne _ _ _ _ (fun hc => hij hc.symm)] at hgj
        have := hB j b hgj vb hvb
        omega
      · rw [get?_set_ne _ _ _ _ hik] at hgi
        by_cases hjk : j = k
        · subst hjk
          rw [get?_set_self _ _ _ hk] at hgj
          have hb : b = { x with renamed_dest_register := some nonrot } :=
            (Option.some.inj hgj).symm
          subst hb
          simp only at hvb
          have hvb' : vb = nonrot := (Option.some.inj hvb).symm
          have := hB i a hgi va hva
          omega
        · rw [get?_set_ne _ _ _ _ hjk] at hgj
          exact hD i j a b hij hgi hgj va vb hva hvb

/-- A non-rotating destination-renaming step either leaves the RISC program
and the counter alone or advances the counter by exactly 1. -/
theorem rename_unit_dest_false_counter (ns : Nat) (st : RiscProgram × Int × Int)
    (u : Option VliwInstructionUnit) (out : RiscProgram × Int × Int)
    (h : rename_unit_dest ns false st u = some out) :
    (out.1 = st.1 ∧ out.2.1 = st.2.1) ∨ out.2.1 = st.2.1 + 1 := by
  obtain ⟨risc, nonrot, rot⟩ := st
  obtain ⟨risc', nonrot', rot'⟩ := out
  obtain ⟨-, -, hcase⟩ :=
    rename_unit_dest_false_spec ns risc nonrot rot u risc' nonrot' rot' h
  rcases hcase with ⟨heq, hn⟩ | ⟨hn, -⟩
  · exact Or.inl ⟨heq, hn⟩
  · exact Or.inr hn

/-- A rotating destination-renaming step keeps the non-rotating counter and
either leaves the rotating counter alone or advances it by `no_stages + 1`. -/
theorem rename_unit_dest_true_rot (ns : Nat) (st : RiscProgram × Int × Int)
    (u : Option VliwInstructionUnit) (out : RiscProgram × Int × Int)
    (h : rename_unit_dest ns true st u = some out) :
    out.2.1 = st.2.1 ∧
    (out.2.2 = st.2.2 ∨ out.2.2 = st.2.2 + ((ns : Int) + 1)) := by
  obtain ⟨risc, nonrot, rot⟩ := st
  obtain ⟨risc', nonrot', rot'⟩ := out
  cases u with
  | none =>
    simp only [rename_unit_dest, Option.some.injEq, Prod.mk.injEq] at h
    exact ⟨h.2.1.symm, Or.inl h.2.2.symm⟩
  | some unit =>
    cases hdest : unit.dest_register with
    | none =>
      simp only [rename_unit_dest, hdest, Option.some.injEq, Prod.mk.injEq] at h
      exact ⟨h.2.1.symm, Or.inl h.2.2.symm⟩
    | some d =>
      simp only [rename_unit_dest, hdest] at h
      by_cases hd : d = -1
      · rw [if_pos hd] at h
        simp only [Option.some.injEq, Prod.mk.injEq] at h
        exact ⟨h.2.1.symm, Or.inl h.2.2.symm⟩
      · rw [if_neg hd] at h
        simp only [if_true, Option.bind_eq_bind, Option.bind_eq_some] at h
        obtain ⟨ridx, hridx, h⟩ := h
        obtain ⟨ins, hins, h⟩ := h
        cases hren : ins.renamed_dest_register with
        | some w =>
          simp only [hren] at h
          exact Option.noConfusion h
        | none =>
          simp only [hren, Option.bind_eq_bind, Option.bind_eq_some] at h
          obtain ⟨prog, hprog, h⟩ := h
          simp only [Option.some.injEq, Prod.mk.injEq] at h
          exact ⟨h.2.1.symm, Or.inr h.2.2.symm⟩

/-- The whole non-rotating destination-renaming pass preserves the counter
invariants. -/
theorem rename_dest_go_false_inv (vliwS : VliwProgram) :
    ∀ n bidx risc nonrot rot risc' nonrot' rot',
      rename_dest_go vliwS false n bidx (risc, nonrot, rot) = some (risc', nonrot', rot') →
      1 ≤ nonrot → RenamedBounded risc 1 nonrot → RenamedDistinct risc →
      1 ≤ nonrot' ∧ RenamedBounded risc' 1 nonrot' ∧ RenamedDistinct risc' := by
  intro n
  induction n with
  | zero =>
    intro bidx risc nonrot rot risc' nonrot' rot' h h1 hB hD
    simp only [rename_dest_go, Option.some.injEq, Prod.mk.injEq] at h
    obtain ⟨e1, e2, e3⟩ := h
    subst e1; subst e2; subst e3
    exact ⟨h1, hB, hD⟩
  | succ n ih =>
    intro bidx risc nonrot rot risc' nonrot' rot' h h1 hB hD
    rw [rename_dest_go] at h
    simp only [Option.bind_eq_bind, Option.bind_eq_some] at h
    obtain ⟨bundle, -, h⟩ := h
    obtain ⟨⟨r1, n1, o1⟩, hs1, h⟩ := h
    obtain ⟨⟨r2, n2, o2⟩, hs2, h⟩ := h
    obtain ⟨⟨r3, n3, o3⟩, hs3, h⟩ := h
    obtain ⟨⟨r4, n4, o4⟩, hs4, h⟩ := h
    obtain ⟨⟨r5, n5, o5⟩, hs5, h⟩ := h
    obtain ⟨i1, iB1, iD1⟩ := rename_unit_dest_false_inv _ _ _ _ _ _ _ _ hs1 h1 hB hD
    obtain ⟨i2, iB2, iD2⟩ := rename_unit_dest_false_inv _ _ _ _ _ _ _ _ hs2 i1 iB1 iD1
    obtain ⟨i3, iB3, iD3⟩ := rename_unit_dest_false_inv _ _ _ _ _ _ _ _ hs3 i2 iB2 iD2
    obtain ⟨i4, iB4, iD4⟩ := rename_unit_dest_false_inv _ _ _ _ _ _ _ _ hs4 i3 iB3 iD3
    obtain ⟨i5, iB5, iD5⟩ := rename_unit_dest_false_inv _ _ _ _ _ _ _ _ hs5 i4 iB4 iD4
    exact ih (bidx + 1) r5 n5 o5 risc' nonrot' rot' h i5 iB5 iD5

/-- What the dependency loop of `rename_loop` records: the counter never
decreases, recorded tuples persist, and every dependency with two listed
producers contributes the tuple built from the bundle and latency of its
FIRST listed producer (`producers_idx[0]`) and the renamed destinations of
its last and first producers. -/
theorem rename_loop_dep_fold_spec (risc : RiscProgram) (vliwS : VliwProgram) :
    ∀ (deps : List RegisterDependency) dict nonrot movs dict' nonrot' movs',
      rename_loop_dep_fold risc vliwS deps (dict, nonrot, movs) =
        some (dict', nonrot', movs') →
      nonrot ≤ nonrot' ∧
      (∀ m ∈ movs, m ∈ movs') ∧
      (∀ dep ∈ deps, ∀ p1 p0, dep.producers_idx = [p1, p0] →
        ∃ pb pins1 pins0,
          dict_get vliwS.risc_pos_to_vliw_pos p1 = some pb ∧
          risc.program.get? p1 = some pins1 ∧
          risc.program.get? p0 = some pins0 ∧
          (max (pb + pins1.latency) (vliwS.end_loop - 1),
            pins0.renamed_dest_register, pins1.renamed_dest_register) ∈ movs') := by
  intro deps
  induction deps with
  | nil =>
    intro dict nonrot movs dict' nonrot' movs' h
    simp only [rename_loop_dep_fold, Option.some.injEq, Prod.mk.injEq] at h
    obtain ⟨-, e2, e3⟩ := h
    subst e2; subst e3
    exact ⟨le_refl _, fun m hm => hm, fun dp hdp => absurd hdp (List.not_mem_nil dp)⟩
  | cons dep rest ih =>
    intro dict nonrot movs dict' nonrot' movs' h
    rw [rename_loop_dep_fold] at h
    by_cases hemp : dep.producers_idx = []
    · rw [if_pos hemp] at h
      obtain ⟨hmono, hmem, hrec⟩ := ih _ _ _ _ _ _ h
      refine ⟨by omega, hmem, ?_⟩
      intro dp hdp p1 p0 hp
      rcases List.mem_cons.mp hdp with hcase | hcase
      · subst hcase; rw [hemp] at hp; exact absurd hp (by simp)
      · exact hrec dp hcase p1 p0 hp
    · rw [if_neg hemp] at h
      simp only [Option.bind_eq_bind, Option.bind_eq_some] at h
      obtain ⟨plast, hplast, h⟩ := h
      obtain ⟨pins, hpins, h⟩ := h
      by_cases hlen : dep.producers_idx.length = 2
      · rw [if_pos hlen] at h
        simp only [Option.bind_eq_bind, Option.bind_eq_some] at h
        obtain ⟨p0v, hp0v, h⟩ := h
        obtain ⟨pb, hpb, h⟩ := h
        obtain ⟨pins0, hpins0, h⟩ := h
        obtain ⟨bb0, hbb0, h⟩ := h
        obtain ⟨hmono, hmem, hrec⟩ := ih _ _ _ _ _ _ h
        rw [sdict_get_set_self] at hbb0
        have hbb0' : bb0 = pins.renamed_dest_register := (Option.some.inj hbb0).symm
        subst hbb0'
        refine ⟨hmono, fun m hm => hmem m (movs_add_mem _ _ _ hm), ?_⟩
        intro dp hdp p1 p0 hp
        rcases List.mem_cons.mp hdp with hcase | hcase
        · subst hcase
          rw [hp] at hplast hp0v
          simp only [List.getLast?] at hplast
          have hpl : plast = p0 := (Option.some.inj hplast).symm
          subst hpl
          simp only [List.get?] at hp0v
          have hpv : p0v = p1 := (Option.some.inj hp0v).symm
          subst hpv
          exact ⟨pb, pins0, pins, hpb, hpins0, hpins,
            hmem _ (movs_add_self _ _)⟩
        · exact hrec dp hcase p1 p0 hp
      · rw [if_neg hlen] at h
        obtain ⟨hmono, hmem, hrec⟩ := ih _ _ _ _ _ _ h
        refine ⟨hmono, hmem, ?_⟩
        intro dp hdp p1 p0 hp
        rcases List.mem_cons.mp hdp with hcase | hcase
        · subst hcase; rw [hp] at hlen; exact absurd rfl hlen
        · exact hrec dp hcase p1 p0 hp

theorem rename_loop_unit_spec (risc : RiscProgram) (vliwS : VliwProgram)
    (u : Option VliwInstructionUnit) (nonrot : Int) (movs : List Mov)
    (u' : Option VliwInstructionUnit) (nonrot' : Int) (movs' : List Mov)
    (h : rename_loop_unit risc vliwS u nonrot movs = some (u', nonrot', movs')) :
    nonrot ≤ nonrot' ∧ (∀ m ∈ movs, m ∈ movs') ∧
    (∀ unit, u = some unit → ∀ ridx, unit.risc_idx = some ridx →
      ∀ ins, pyListGet risc.program ridx = some ins →
      ∀ dep ∈ ins.register_dependencies, ∀ p1 p0, dep.producers_idx = [p1, p0] →
      ∃ pb pins1 pins0,
        dict_get vliwS.risc_pos_to_vliw_pos p1 = some pb ∧
        risc.program.get? p1 = some pins1 ∧
        risc.program.get? p0 = some pins0 ∧
        (max (pb + pins1.latency) (vliwS.end_loop - 1),
          pins0.renamed_dest_register, pins1.renamed_dest_register) ∈ movs') := by
  cases u with
  | none =>
    simp only [rename_loop_unit, Option.some.injEq, Prod.mk.injEq] at h
    obtain ⟨-, e2, e3⟩ := h
    subst e2; subst e3
    exact ⟨le_refl _, fun m hm => hm, fun unit hu => Option.noConfusion hu⟩
  | some unit0 =>
    simp only [rename_loop_unit, Option.bind_eq_bind, Option.bind_eq_some] at h
    obtain ⟨ridx0, hridx0, h⟩ := h
    obtain ⟨risc_instr, hinstr, h⟩ := h
    obtain ⟨⟨d1, n1, m1⟩, hfold, h⟩ := h
    obtain ⟨text, -, h⟩ := h
    simp only [Option.some.injEq, Prod.mk.injEq] at h
    obtain ⟨-, e2, e3⟩ := h
    subst e2; subst e3
    obtain ⟨hmono, hmem, hrec⟩ :=
      rename_loop_dep_fold_spec risc vliwS _ _ _ _ _ _ _ hfold
    refine ⟨hmono, hmem, ?_⟩
    intro unit hu ridx hridx ins hins dep hdep p1 p0 hp
    have hueq : unit0 = unit := Option.some.inj hu
    subst hueq
    rw [hridx0] at hridx
    have hre : ridx0 = ridx := Option.some.inj hridx
    subst hre
    rw [hinstr] at hins
    have hie : risc_instr = ins := Option.some.inj hins
    subst hie
    exact hrec dep hdep p1 p0 hp

theorem rename_loop_bundle_spec (risc : RiscProgram) (vliwS : VliwProgram)
    (bundle : VliwInstruction) (nonrot : Int) (movs : List Mov)
    (bundle' : VliwInstruction) (nonrot' : Int) (movs' : List Mov)
    (h : rename_loop_bundle risc vliwS bundle nonrot movs =
      some (bundle', nonrot', movs')) :
    nonrot ≤ nonrot' ∧ (∀ m ∈ movs, m ∈ movs') ∧
    (∀ unit, (bundle.alu0 = some unit ∨ bundle.alu1 = some unit ∨
        bundle.mul = some unit ∨ bundle.mem = some unit) →
      ∀ ridx, unit.risc_idx = some ridx →
      ∀ ins, pyListGet risc.program ridx = some ins →
      ∀ dep ∈ ins.register_dependencies, ∀ p1 p0, dep.producers_idx = [p1, p0] →
      ∃ pb pins1 pins0,
        dict_get vliwS.risc_pos_to_vliw_pos p1 = some pb ∧
        risc.program.get? p1 = some pins1 ∧
        risc.program.get? p0 = some pins0 ∧
        (max (pb + pins1.latency) (vliwS.end_loop - 1),
          pins0.renamed_dest_register, pins1.renamed_dest_register) ∈ movs') := by
  simp only [rename_loop_bundle, Option.bind_eq_bind, Option.bind_eq_some] at h
  obtain ⟨⟨a0, na, ma⟩, ha, h⟩ := h
  obtain ⟨⟨a1, nb, mb⟩, hb, h⟩ := h
  obtain ⟨⟨mu, nc, mc⟩, hc, h⟩ := h
  obtain ⟨⟨me, nd, md⟩, hd, h⟩ := h
  simp only [Option.some.injEq, Prod.mk.injEq] at h
  obtain ⟨-, e2, e3⟩ := h
  subst e2; subst e3
  obtain ⟨m1, s1, r1⟩ := rename_loop_unit_spec risc vliwS _ _ _ _ _ _ ha
  obtain ⟨m2, s2, r2⟩ := rename_loop_unit_spec risc vliwS _ _ _ _ _ _ hb
  obtain ⟨m3, s3, r3⟩ := rename_loop_unit_spec risc vliwS _ _ _ _ _ _ hc
  obtain ⟨m4, s4, r4⟩ := rename_loop_unit_spec risc vliwS _ _ _ _ _ _ hd
  refine ⟨le_trans m1 (le_trans m2 (le_trans m3 m4)), fun m hm => s4 m (s3 m (s2 m (s1 m hm))), ?_⟩
  intro unit hslot ridx hridx ins hins dep hdep p1 p0 hp
  rcases hslot with hs | hs | hs | hs
  · obtain ⟨pb, pins1, pins0, c1, c2, c3, c4⟩ := r1 unit hs ridx hridx ins hins dep hdep p1 p0 hp
    exact ⟨pb, pins1, pins0, c1, c2, c3, s4 _ (s3 _ (s2 _ c4))⟩
  · obtain ⟨pb, pins1, pins0, c1, c2, c3, c4⟩ := r2 unit hs ridx hridx ins hins dep hdep p1 p0 hp
    exact ⟨pb, pins1, pins0, c1, c2, c3, s4 _ (s3 _ c4)⟩
  · obtain ⟨pb, pins1, pins0, c1, c2, c3, c4⟩ := r3 unit hs ridx hridx ins hins dep hdep p1 p0 hp
    exact ⟨pb, pins1, pins0, c1, c2, c3, s4 _ c4⟩
  · exact r4 unit hs ridx hridx ins hins dep hdep p1 p0 hp

/-- The renaming loop of `rename_loop` records, for every dependency with two
listed producers of every instruction placed in a visited bundle, the fix-up
tuple built from the first listed producer's bundle and latency (the
position map and loop end are never modified by the loop, so they are read
off the entry state). -/
theorem rename_loop_scan_spec (risc : RiscProgram) :
    ∀ n idx vliwS nonrot movs vliwS' nonrot' movs',
      rename_loop_scan risc n idx (vliwS, nonrot, movs) =
        some (vliwS', nonrot', movs') →
      nonrot ≤ nonrot' ∧ (∀ m ∈ movs, m ∈ movs') ∧
      (∀ j, idx ≤ j → j < idx + n → ∀ bundle, vliwS.program.get? j = some bundle →
        ∀ unit, (bundle.alu0 = some unit ∨ bundle.alu1 = some unit ∨
            bundle.mul = some unit ∨ bundle.mem = some unit) →
        ∀ ridx, unit.risc_idx = some ridx →
        ∀ ins, pyListGet risc.program ridx = some ins →
        ∀ dep ∈ ins.register_dependencies, ∀ p1 p0, dep.producers_idx = [p1, p0] →
        ∃ pb pins1 pins0,
          dict_get vliwS.risc_pos_to_vliw_pos p1 = some pb ∧
          risc.program.get? p1 = some pins1 ∧
          risc.program.get? p0 = some pins0 ∧
          (max (pb + pins1.latency) (vliwS.end_loop - 1),
            pins0.renamed_dest_register, pins1.renamed_dest_register) ∈ movs') := by
  intro n
  induction n with
  | zero =>
    intro idx vliwS nonrot movs vliwS' nonrot' movs' h
    simp only [rename_loop_scan, Option.some.injEq, Prod.mk.injEq] at h
    obtain ⟨-, e2, e3⟩ := h
    subst e2; subst e3
    exact ⟨le_refl _, fun m hm => hm, fun j hj1 hj2 => absurd hj2 (by omega)⟩
  | succ n ih =>
    intro idx vliwS nonrot movs vliwS' nonrot' movs' h
    rw [rename_loop_scan] at h
    simp only [Option.bind_eq_bind, Option.bind_eq_some] at h
    obtain ⟨bundle0, hb0, h⟩ := h
    obtain ⟨⟨b1, n1, m1⟩, hbun, h⟩ := h
    obtain ⟨mono1, mem1, rec1⟩ :=
      rename_loop_bundle_spec risc vliwS _ _ _ _ _ _ hbun
    obtain ⟨mono2, mem2, rec2⟩ := ih _ _ _ _ _ _ _ h
    refine ⟨le_trans mono1 mono2, fun m hm => mem2 m (mem1 m hm), ?_⟩
    intro j hj1 hj2 bundle hbj unit hslot ridx hridx ins hins dep hdep p1 p0 hp
    by_cases hje : j = idx
    · subst hje
      rw [hb0] at hbj
      have hbe : bundle0 = bundle := Option.some.inj hbj
      subst hbe
      obtain ⟨pb, pins1, pins0, c1, c2, c3, c4⟩ :=
        rec1 unit hslot ridx hridx ins hins dep hdep p1 p0 hp
      exact ⟨pb, pins1, pins0, c1, c2, c3, mem2 _ c4⟩
    · have hbj' : (vliwS.program.set idx b1).get? j = some bundle :=
        (get?_set_ne vliwS.program j idx b1 hje).trans hbj
      exact rec2 j (by omega) (by omega) bundle hbj' unit hslot ridx hridx
        ins hins dep hdep p1 p0 hp

/-- C5 data: a BB0 producer scheduled in bundle 0 (latency 1) and a BB1
instruction in bundle 2 that is both consumer and first listed producer of an
interloop dependency with producer list [1, 0]; the loop body ends at
bundle 2.  The operand texts carry no operand register so that the text
rewriter (whose dict lookup always raises, see `rename_text_go`) succeeds. -/
def c5_demo_risc : RiscProgram :=
  ⟨[⟨some 1, [], true, false, false, "mov x1, 5", none⟩,
    ⟨some 1, [⟨"1", [1, 0], false, true, false, false⟩], true, false, false,
      "addi x1, 7", none⟩], 1, 2⟩

/-- The VLIW state the C5 data is renamed against. -/
def c5_demo_vliw : VliwProgram :=
  ⟨[⟨some ⟨some 1, "mov x1, 5", some 0⟩, none, none, none, none⟩,
    VliwInstruction.empty,
    ⟨some ⟨some 1, "addi x1, 7", some 1⟩, none, none, none, none⟩],
   [(0, 0), (1, 2)], [], 0, 0, 1, 2⟩

/-- `c5_demo_risc` after destination renaming (the BB0 producer gets 1, the
BB1 instruction gets 2). -/
def c5_demo_risc_renamed : RiscProgram :=
  ⟨[⟨some 1, [], true, false, false, "mov x1, 5", some 1⟩,
    ⟨some 1, [⟨"1", [1, 0], false, true, false, false⟩], true, false, false,
      "addi x1, 7", some 2⟩], 1, 2⟩

/-- `c5_demo_vliw` after the renaming loop rewrote the texts. -/
def c5_demo_vliw_renamed : VliwProgram :=
  ⟨[⟨some ⟨some 1, "mov x1, 5", some 0⟩, none, none, none, none⟩,
    VliwInstruction.empty,
    ⟨some ⟨some 1, "addi x2, 7", some 1⟩, none, none, none, none⟩],
   [(0, 0), (1, 2)], [], 0, 0, 1, 2⟩

/-- C5 counterexample: on `c5_demo_risc`/`c5_demo_vliw` the recorded fix-up
tuple has earliest cycle 3 = bundle(BB1 producer) + latency(BB1 producer)
(= 2 + 1), while the claim's formula — bundle(BB0 producer) +
latency(BB0 producer) floored at end_loop − 1, i.e. max (0 + 1) (2 − 1) —
gives 1, not 3: the code indexes `producers_idx[0]`, the BB1 producer. -/
theorem c5_fixup_counterexample :
    (rename_loop_core c5_demo_risc c5_demo_vliw).map (fun r => r.2.2.2)
      = some [(3, some 1, some 2)] ∧
    dict_get c5_demo_vliw.risc_pos_to_vliw_pos 0 = some 0 ∧
    (c5_demo_risc.program.get? 0).map RiscInstruction.latency = some 1 ∧
    max (0 + 1) (c5_demo_vliw.end_loop - 1) ≠ 3 := by
  refine ⟨?_, by decide, by decide, by decide⟩
  rfl

/-- C5 (amended): during non-pipelined renaming, for every operand dependency
with two listed producers of an instruction placed in a bundle, a fix-up
tuple is recorded whose earliest cycle is the bundle index of the FIRST
listed producer (`producers_idx[0]`, the BB1 producer) plus that producer's
latency, lower-bounded at `end_loop - 1`, and whose register pair is the
renamed destination of the last listed (BB0) producer followed by that of
the first listed (BB1) producer. -/
theorem c5_interloop_fixup_tuple (risc : RiscProgram) (vliw : VliwProgram)
    (risc' : RiscProgram) (vliw' : VliwProgram) (nonrot' : Int) (movs : List Mov)
    (h : rename_loop_core risc vliw = some (risc', vliw', nonrot', movs))
    (idx : Nat) (bundle : VliwInstruction)
    (hb : vliw.program.get? idx = some bundle)
    (unit : VliwInstructionUnit)
    (hu : bundle.alu0 = some unit ∨ bundle.alu1 = some unit ∨
      bundle.mul = some unit ∨ bundle.mem = some unit)
    (ridx : Int) (hridx : unit.risc_idx = some ridx)
    (ins : RiscInstruction) (hins : pyListGet risc'.program ridx = some ins)
    (dep : RegisterDependency) (hdep : dep ∈ ins.register_dependencies)
    (p1 p0 : Nat) (hp : dep.producers_idx = [p1, p0]) :
    ∃ pb pins1 pins0,
      dict_get vliw.risc_pos_to_vliw_pos p1 = some pb ∧
      risc'.program.get? p1 = some pins1 ∧
      risc'.program.get? p0 = some pins0 ∧
      (max (pb + pins1.latency) (vliw.end_loop - 1),
        pins0.renamed_dest_register, pins1.renamed_dest_register) ∈ movs := by
  unfold rename_loop_core at h
  simp only [Option.bind_eq_bind, Option.bind_eq_some] at h
  obtain ⟨⟨risc1, nr1, rot1⟩, -, h⟩ := h
  obtain ⟨⟨vliw1, nr2, movs1⟩, hscan, h⟩ := h
  simp only [Option.some.injEq, Prod.mk.injEq] at h
  obtain ⟨e1, -, -, e4⟩ := h
  rw [e1, e4] at hscan
  obtain ⟨-, -, rec⟩ := rename_loop_scan_spec risc' _ _ _ _ _ _ _ _ hscan
  have hidx : idx < vliw.program.length := (List.get?_eq_some.mp hb).choose
  exact rec idx (Nat.zero_le idx) (by omega) bundle hb unit hu ridx hridx
    ins hins dep hdep p1 p0 hp

/-- The C5 theorem at the demo data: the tuple predicted from the first
listed producer (bundle 2, latency 1, so earliest cycle 3) is recorded. -/
theorem c5_interloop_fixup_tuple_witness :
    ∃ pb pins1 pins0,
      dict_get c5_demo_vliw.risc_pos_to_vliw_pos 1 = some pb ∧
      c5_demo_risc_renamed.program.get? 1 = some pins1 ∧
      c5_demo_risc_renamed.program.get? 0 = some pins0 ∧
      (max (pb + pins1.latency) (c5_demo_vliw.end_loop - 1),
        pins0.renamed_dest_register, pins1.renamed_dest_register)
        ∈ [((3 : Nat), (some 1 : Option Int), (some 2 : Option Int))] :=
  c5_interloop_fixup_tuple c5_demo_risc c5_demo_vliw c5_demo_risc_renamed
    c5_demo_vliw_renamed 3 [(3, some 1, some 2)] rfl
    2 ⟨some ⟨some 1, "addi x1, 7", some 1⟩, none, none, none, none⟩ rfl
    ⟨some 1, "addi x1, 7", some 1⟩ (Or.inl rfl)
    1 rfl
    ⟨some 1, [⟨"1", [1, 0], false, true, false, false⟩], true, false, false,
      "addi x1, 7", some 2⟩ rfl
    ⟨"1", [1, 0], false, true, false, false⟩ (by simp)
    1 0 rfl

/-- C10: under `rename_loop` (which seeds the counters with the
constructor's 1 and 32) every assigned renamed destination is unique and at
least 1; a non-rotating destination allocation advances the counter by
exactly 1, a rotating one advances the rotating counter by exactly
`no_stages + 1`, and a producer-less dependency allocates the current
non-rotating counter as a dummy and advances it by 1. -/
theorem c10_renaming_distinct_destinations (risc : RiscProgram)
    (vliw : VliwProgram) (risc' : RiscProgram) (vliw' : VliwProgram)
    (nonrot' : Int)
    (hnone : ∀ a ∈ risc.program, a.renamed_dest_register = none)
    (h : rename_loop risc vliw = some (risc', vliw', nonrot')) :
    RenamedDistinct risc' ∧ RenamedBounded risc' 1 nonrot' ∧
    (∀ st u out, rename_unit_dest vliw.no_stages false st u = some out →
      (out.1 = st.1 ∧ out.2.1 = st.2.1) ∨ out.2.1 = st.2.1 + 1) ∧
    (∀ st u out, rename_unit_dest vliw.no_stages true st u = some out →
      out.2.1 = st.2.1 ∧
      (out.2.2 = st.2.2 ∨ out.2.2 = st.2.2 + ((vliw.no_stages : Int) + 1))) ∧
    (∀ dep rest dict nr movs, dep.producers_idx = [] →
      rename_loop_dep_fold risc' vliw (dep :: rest) (dict, nr, movs) =
        rename_loop_dep_fold risc' vliw rest
          (sdict_set dict dep.reg_tag (some nr), nr + 1, movs)) := by
  unfold rename_loop at h
  simp only [Option.bind_eq_bind, Option.bind_eq_some] at h
  obtain ⟨⟨risc1, vliw1, nr2, movs⟩, hcore, h⟩ := h
  obtain ⟨movs2, -, h⟩ := h
  obtain ⟨vliw2, -, h⟩ := h
  simp only [Option.some.injEq, Prod.mk.injEq] at h
  obtain ⟨e1, -, e3⟩ := h
  unfold rename_loop_core at hcore
  simp only [Option.bind_eq_bind, Option.bind_eq_some] at hcore
  obtain ⟨⟨riscA, nr1, rot1⟩, hph1, hcore⟩ := hcore
  obtain ⟨⟨vliwB, nrB, movsB⟩, hscan, hcore⟩ := hcore
  simp only [Option.some.injEq, Prod.mk.injEq] at hcore
  obtain ⟨f1, -, f3, -⟩ := hcore
  unfold rename_dest_registers at hph1
  have hB0 : RenamedBounded risc 1 1 := by
    intro i a hg v hv
    rw [hnone a (List.get?_mem hg)] at hv
    exact Option.noConfusion hv
  have hD0 : RenamedDistinct risc := by
    intro i j a b hij hgi hgj va vb hva hvb
    rw [hnone a (List.get?_mem hgi)] at hva
    exact Option.noConfusion hva
  obtain ⟨h1, hB1, hD1⟩ :=
    rename_dest_go_false_inv vliw _ _ _ _ _ _ _ _ hph1 (le_refl 1) hB0 hD0
  obtain ⟨hmono, -, -⟩ := rename_loop_scan_spec riscA _ _ _ _ _ _ _ _ hscan
  have hra : risc' = riscA := (f1.trans e1).symm
  have hnn : nonrot' = nrB := (f3.trans e3).symm
  rw [hra, hnn]
  have hmono2 : nr1 ≤ nrB := hmono
  refine ⟨hD1, RenamedBounded.mono _ _ _ _ hB1 (by omega), ?_, ?_, ?_⟩
  · intro st u out hstep
    exact rename_unit_dest_false_counter _ _ _ _ hstep
  · intro st u out hstep
    exact rename_unit_dest_true_rot _ _ _ _ hstep
  · intro dep rest dict nr movs hpe
    rw [rename_loop_dep_fold, if_pos hpe]

/-- `c5_demo_vliw` after the whole of `rename_loop`: the loop end was pushed
from 2 to 4 and the fix-up `mov x1, x2` sits in bundle 3. -/
def c5_demo_vliw_final : VliwProgram :=
  ⟨[⟨some ⟨some 1, "mov x1, 5", some 0⟩, none, none, none, none⟩,
    VliwInstruction.empty,
    VliwInstruction.empty,
    ⟨some ⟨some (-1), "mov x1, x2", some (-1)⟩, none, none, none, none⟩,
    ⟨some ⟨some 1, "addi x2, 7", some 1⟩, none, none, none, none⟩],
   [(0, 0), (1, 2)], [], 0, 0, 1, 4⟩

/-- The C10 theorem at the demo data (both destinations renamed, to 1 and 2,
with the final counter at 3). -/
theorem c10_renaming_distinct_destinations_witness :
    RenamedDistinct c5_demo_risc_renamed ∧
    RenamedBounded c5_demo_risc_renamed 1 3 ∧
    (∀ st u out, rename_unit_dest c5_demo_vliw.no_stages false st u = some out →
      (out.1 = st.1 ∧ out.2.1 = st.2.1) ∨ out.2.1 = st.2.1 + 1) ∧
    (∀ st u out, rename_unit_dest c5_demo_vliw.no_stages true st u = some out →
      out.2.1 = st.2.1 ∧
      (out.2.2 = st.2.2 ∨
        out.2.2 = st.2.2 + ((c5_demo_vliw.no_stages : Int) + 1))) ∧
    (∀ dep rest dict nr movs, dep.producers_idx = [] →
      rename_loop_dep_fold c5_demo_risc_renamed c5_demo_vliw (dep :: rest)
          (dict, nr, movs) =
        rename_loop_dep_fold c5_demo_risc_renamed c5_demo_vliw rest
          (sdict_set dict dep.reg_tag (some nr), nr + 1, movs)) :=
  c10_renaming_distinct_destinations c5_demo_risc c5_demo_vliw
    c5_demo_risc_renamed c5_demo_vliw_final 3 (by decide) rfl

/-- The pipelined rewrite loop never decreases the counter and leaves dict
entries of tags it does not process untouched. -/
theorem rename_pip_dep_fold_frame (risc : RiscProgram) (vliwS : VliwProgram)
    (bundle_idx : Nat) (cridx : Int) :
    ∀ (deps : List RegisterDependency) dict nonrot dict' nonrot',
      rename_pip_dep_fold risc vliwS bundle_idx cridx deps (dict, nonrot) =
        some (dict', nonrot') →
      nonrot ≤ nonrot' ∧
      (∀ k, k ∉ deps.map RegisterDependency.reg_tag →
        sdict_get dict' k = sdict_get dict k) := by
  intro deps
  induction deps with
  | nil =>
    intro dict nonrot dict' nonrot' h
    simp only [rename_pip_dep_fold, Option.some.injEq, Prod.mk.injEq] at h
    obtain ⟨e1, e2⟩ := h
    subst e1; subst e2
    exact ⟨le_refl _, fun k hk => rfl⟩
  | cons dep rest ih =>
    intro dict nonrot dict' nonrot' h
    rw [rename_pip_dep_fold] at h
    have step : ∀ v m, rename_pip_dep_fold risc vliwS bundle_idx cridx rest
        (sdict_set dict dep.reg_tag v, m) = some (dict', nonrot') →
        m = nonrot ∨ m = nonrot + 1 →
        nonrot ≤ nonrot' ∧
        (∀ k, k ∉ (dep :: rest).map RegisterDependency.reg_tag →
          sdict_get dict' k = sdict_get dict k) := by
      intro v m hrec hm
      obtain ⟨hmono, hpres⟩ := ih _ _ _ _ hrec
      refine ⟨by omega, fun k hk => ?_⟩
      have hk1 : k ≠ dep.reg_tag := fun hc => hk (by simp [hc])
      have hk2 : k ∉ rest.map RegisterDependency.reg_tag := fun hc => hk (by simp [hc])
      rw [hpres k hk2, sdict_get_set_ne _ _ _ _ hk1]
    by_cases hinv : dep.is_loop_invariant = true
    · rw [if_pos hinv] at h
      simp only [Option.bind_eq_bind, Option.bind_eq_some] at h
      obtain ⟨p0, -, h⟩ := h
      obtain ⟨pins, -, h⟩ := h
      exact step _ _ h (Or.inl rfl)
    · rw [if_neg hinv] at h
      by_cases hli : (dep.is_local = true ∨ dep.is_interloop = true)
      · rw [if_pos hli] at h
        by_cases hout : (vliwS.start_loop > bundle_idx ∨ vliwS.end_loop ≤ bundle_idx)
        · rw [if_pos hout] at h
          by_cases hloc : dep.is_local = true
          · rw [if_pos hloc] at h
            simp only [Option.bind_eq_bind, Option.bind_eq_some] at h
            obtain ⟨p0, -, h⟩ := h
            obtain ⟨pins, -, h⟩ := h
            exact step _ _ h (Or.inl rfl)
          · rw [if_neg hloc] at h
            exact Option.noConfusion h
        · rw [if_neg hout] at h
          simp only [Option.bind_eq_bind, Option.bind_eq_some] at h
          obtain ⟨p0, -, h⟩ := h
          obtain ⟨ppos, -, h⟩ := h
          obtain ⟨pstage, -, h⟩ := h
          by_cases hcr : cridx < 0
          · rw [if_pos hcr] at h
            simp at h
          · rw [if_neg hcr] at h
            simp only [Option.bind_eq_bind, Option.bind_eq_some] at h
            obtain ⟨cpos, -, h⟩ := h
            obtain ⟨cstage, -, h⟩ := h
            obtain ⟨pins, -, h⟩ := h
            obtain ⟨pr, -, h⟩ := h
            exact step _ _ h (Or.inl rfl)
      · rw [if_neg hli] at h
        by_cases hpl : dep.is_post_loop = true
        · rw [if_pos hpl] at h
          simp only [Option.bind_eq_bind, Option.bind_eq_some] at h
          obtain ⟨p0, -, h⟩ := h
          obtain ⟨ppos, -, h⟩ := h
          obtain ⟨pstage, -, h⟩ := h
          obtain ⟨pins, -, h⟩ := h
          obtain ⟨pr, -, h⟩ := h
          exact step _ _ h (Or.inl rfl)
        · rw [if_neg hpl] at h
          by_cases hpe : dep.producers_idx = []
          · rw [if_pos hpe] at h
            exact step _ _ h (Or.inr rfl)
          · rw [if_neg hpe] at h
            exact Option.noConfusion h

/-- What the pipelined rewrite loop stores in the rename dict for one
dependency, by kind: the producer's renamed name unchanged for loop-invariant
(and for local dependencies consumed outside the body); `producer_renamed +
(stage(consumer) − stage(producer))` plus an extra 1 for interloop when
consumed inside the body; `producer_renamed + (no_stages − stage(producer))`
for post-loop; a fresh non-rotating name in `[lo, hi)` when no kind is set. -/
def PipRewriteValue (risc : RiscProgram) (vliwS : VliwProgram)
    (bundle_idx : Nat) (cridx : Int) (dict' : List (String × Option Int))
    (lo hi : Int) (dep : RegisterDependency) : Prop :=
  (dep.is_loop_invariant = true →
    ∃ p0 pins, dep.producers_idx.get? 0 = some p0 ∧
      risc.program.get? p0 = some pins ∧
      sdict_get dict' dep.reg_tag = some pins.renamed_dest_register) ∧
  (dep.is_loop_invariant = false →
    (dep.is_local = true ∨ dep.is_interloop = true) →
    (vliwS.start_loop > bundle_idx ∨ vliwS.end_loop ≤ bundle_idx) →
    dep.is_local = true →
    ∃ p0 pins, dep.producers_idx.get? 0 = some p0 ∧
      risc.program.get? p0 = some pins ∧
      sdict_get dict' dep.reg_tag = some pins.renamed_dest_register) ∧
  (dep.is_loop_invariant = false →
    (dep.is_local = true ∨ dep.is_interloop = true) →
    vliwS.start_loop ≤ bundle_idx → bundle_idx < vliwS.end_loop →
    ∃ p0 ppos pstage cpos cstage pins pr,
      dep.producers_idx.get? 0 = some p0 ∧
      dict_get vliwS.risc_pos_to_vliw_pos p0 = some ppos ∧
      get_stage vliwS ppos = some pstage ∧
      0 ≤ cridx ∧
      dict_get vliwS.risc_pos_to_vliw_pos cridx.toNat = some cpos ∧
      get_stage vliwS cpos = some cstage ∧
      risc.program.get? p0 = some pins ∧
      pins.renamed_dest_register = some pr ∧
      sdict_get dict' dep.reg_tag =
        some (some (pr + ((cstage : Int) - (pstage : Int)) +
          (if dep.is_interloop = true then 1 else 0)))) ∧
  (dep.is_loop_invariant = false → dep.is_local = false →
    dep.is_interloop = false → dep.is_post_loop = true →
    ∃ p0 ppos pstage pins pr,
      dep.producers_idx.get? 0 = some p0 ∧
      dict_get vliwS.risc_pos_to_vliw_pos p0 = some ppos ∧
      get_stage vliwS ppos = some pstage ∧
      risc.program.get? p0 = some pins ∧
      pins.renamed_dest_register = some pr ∧
      sdict_get dict' dep.reg_tag =
        some (some (pr + ((vliwS.no_stages : Int) - (pstage : Int))))) ∧
  (dep.is_loop_invariant = false → dep.is_local = false →
    dep.is_interloop = false → dep.is_post_loop = false →
    dep.producers_idx = [] ∧
    ∃ k, sdict_get dict' dep.reg_tag = some (some k) ∧ lo ≤ k ∧ k < hi)

theorem PipRewriteValue.mono_lo (risc : RiscProgram) (vliwS : VliwProgram)
    (bundle_idx : Nat) (cridx : Int) (dict' : List (String × Option Int))
    (lo lo' hi : Int) (dep : RegisterDependency)
    (h : PipRewriteValue risc vliwS bundle_idx cridx dict' lo hi dep)
    (hle : lo' ≤ lo) :
    PipRewriteValue risc vliwS bundle_idx cridx dict' lo' hi dep := by
  obtain ⟨c1, c2, c3, c4, c5⟩ := h
  refine ⟨c1, c2, c3, c4, fun h1 h2 h3 h4 => ?_⟩
  obtain ⟨hpe, k, hk, hk1, hk2⟩ := c5 h1 h2 h3 h4
  exact ⟨hpe, k, hk, by omega, hk2⟩

/-- C4: in pipelined renaming, the operand-rewrite loop of `rename_loop_pip`
resolves every dependency of an instruction whose dependency tags are
distinct exactly as the claim states: a local or interloop dependency
consumed inside the body reads `producer_renamed + (stage(consumer) −
stage(producer))`, plus an additional 1 when interloop; a post-loop
dependency reads `producer_renamed + (no_stages − stage(producer))`; a
loop-invariant dependency (and a local one consumed outside the body) reads
the producer's renamed name unchanged; and a dependency with no kind set
receives a fresh non-rotating name. -/
theorem c4_pip_operand_rewrite (risc : RiscProgram) (vliwS : VliwProgram)
    (bundle_idx : Nat) (cridx : Int) :
    ∀ (deps : List RegisterDependency) dict0 nonrot0 dict' nonrot',
      (deps.map RegisterDependency.reg_tag).Nodup →
      rename_pip_dep_fold risc vliwS bundle_idx cridx deps (dict0, nonrot0) =
        some (dict', nonrot') →
      ∀ dep ∈ deps,
        PipRewriteValue risc vliwS bundle_idx cridx dict' nonrot0 nonrot' dep := by
  intro deps
  induction deps with
  | nil =>
    intro dict0 nonrot0 dict' nonrot' hnodup h
    exact fun dep hdep => absurd hdep (List.not_mem_nil dep)
  | cons dep rest ih =>
    intro dict0 nonrot0 dict' nonrot' hnodup h
    rw [List.map_cons] at hnodup
    obtain ⟨hnd1, hnd2⟩ := List.nodup_cons.mp hnodup
    rw [rename_pip_dep_fold] at h
    by_cases hinv : dep.is_loop_invariant = true
    · rw [if_pos hinv] at h
      simp only [Option.bind_eq_bind, Option.bind_eq_some] at h
      obtain ⟨p0, hp0, h⟩ := h
      obtain ⟨pins, hpins, h⟩ := h
      obtain ⟨-, hpres⟩ :=
        rename_pip_dep_fold_frame risc vliwS bundle_idx cridx rest _ _ _ _ h
      intro dp hdp
      rcases List.mem_cons.mp hdp with hcase | hcase
      · subst hcase
        have hentry : sdict_get dict' dp.reg_tag = some pins.renamed_dest_register :=
          (hpres dp.reg_tag (by simpa using hnd1)).trans (sdict_get_set_self _ _ _)
        exact ⟨fun _ => ⟨p0, pins, hp0, hpins, hentry⟩,
          fun hf => absurd (hinv.symm.trans hf) (by decide),
          fun hf => absurd (hinv.symm.trans hf) (by decide),
          fun hf => absurd (hinv.symm.trans hf) (by decide),
          fun hf => absurd (hinv.symm.trans hf) (by decide)⟩
      · exact ih _ _ _ _ hnd2 h dp hcase
    · rw [if_neg hinv] at h
      have hinv' : dep.is_loop_invariant = false := by
        cases hb : dep.is_loop_invariant
        · rfl
        · exact absurd hb hinv
      by_cases hli : (dep.is_local = true ∨ dep.is_interloop = true)
      · rw [if_pos hli] at h
        by_cases hout : (vliwS.start_loop > bundle_idx ∨ vliwS.end_loop ≤ bundle_idx)
        · rw [if_pos hout] at h
          by_cases hloc : dep.is_local = true
          · rw [if_pos hloc] at h
            simp only [Option.bind_eq_bind, Option.bind_eq_some] at h
            obtain ⟨p0, hp0, h⟩ := h
            obtain ⟨pins, hpins, h⟩ := h
            obtain ⟨-, hpres⟩ :=
              rename_pip_dep_fold_frame risc vliwS bundle_idx cridx rest _ _ _ _ h
            intro dp hdp
            rcases List.mem_cons.mp hdp with hcase | hcase
            · subst hcase
              have hentry : sdict_get dict' dp.reg_tag =
                  some pins.renamed_dest_register :=
                (hpres dp.reg_tag (by simpa using hnd1)).trans (sdict_get_set_self _ _ _)
              exact ⟨fun h1 => absurd h1 hinv,
                fun _ _ _ _ => ⟨p0, pins, hp0, hpins, hentry⟩,
                fun _ _ hc3 hc4 => absurd hout (by omega),
                fun _ hl _ _ => absurd (hloc.symm.trans hl) (by decide),
                fun _ hl _ _ => absurd (hloc.symm.trans hl) (by decide)⟩
            · exact ih _ _ _ _ hnd2 h dp hcase
          · rw [if_neg hloc] at h
            exact absurd h (by simp)
        · rw [if_neg hout] at h
          simp only [Option.bind_eq_bind, Option.bind_eq_some] at h
          obtain ⟨p0, hp0, h⟩ := h
          obtain ⟨ppos, hppos, h⟩ := h
          obtain ⟨pstage, hpstage, h⟩ := h
          by_cases hcr : cridx < 0
          · rw [if_pos hcr] at h
            simp at h
          · rw [if_neg hcr] at h
            simp only [Option.bind_eq_bind, Option.bind_eq_some] at h
            obtain ⟨cpos, hcpos, h⟩ := h
            obtain ⟨cstage, hcstage, h⟩ := h
            obtain ⟨pins, hpins, h⟩ := h
            obtain ⟨pr, hpr, h⟩ := h
            obtain ⟨-, hpres⟩ :=
              rename_pip_dep_fold_frame risc vliwS bundle_idx cridx rest _ _ _ _ h
            intro dp hdp
            rcases List.mem_cons.mp hdp with hcase | hcase
            · subst hcase
              have hentry : sdict_get dict' dp.reg_tag =
                  some (some (pr + ((cstage : Int) - (pstage : Int)) +
                    (if dp.is_interloop = true then 1 else 0))) :=
                (hpres dp.reg_tag (by simpa using hnd1)).trans (sdict_get_set_self _ _ _)
              exact ⟨fun h1 => absurd h1 hinv,
                fun _ _ hc _ => absurd hc hout,
                fun _ _ _ _ => ⟨p0, ppos, pstage, cpos, cstage, pins, pr,
                  hp0, hppos, hpstage, by omega, hcpos, hcstage, hpins, hpr, hentry⟩,
                fun _ hl hi2 _ => absurd hli (by simp [hl, hi2]),
                fun _ hl hi2 _ => absurd hli (by simp [hl, hi2])⟩
            · exact ih _ _ _ _ hnd2 h dp hcase
      · rw [if_neg hli] at h
        by_cases hpl : dep.is_post_loop = true
        · rw [if_pos hpl] at h
          simp only [Option.bind_eq_bind, Option.bind_eq_some] at h
          obtain ⟨p0, hp0, h⟩ := h
          obtain ⟨ppos, hppos, h⟩ := h
          obtain ⟨pstage, hpstage, h⟩ := h
          obtain ⟨pins, hpins, h⟩ := h
          obtain ⟨pr, hpr, h⟩ := h
          obtain ⟨-, hpres⟩ :=
            rename_pip_dep_fold_frame risc vliwS bundle_idx cridx rest _ _ _ _ h
          intro dp hdp
          rcases List.mem_cons.mp hdp with hcase | hcase
          · subst hcase
            have hentry : sdict_get dict' dp.reg_tag =
                some (some (pr + ((vliwS.no_stages : Int) - (pstage : Int)))) :=
              (hpres dp.reg_tag (by simpa using hnd1)).trans (sdict_get_set_self _ _ _)
            exact ⟨fun h1 => absurd h1 hinv,
              fun _ hc _ _ => absurd hc hli,
              fun _ hc _ _ => absurd hc hli,
              fun _ _ _ _ => ⟨p0, ppos, pstage, pins, pr,
                hp0, hppos, hpstage, hpins, hpr, hentry⟩,
              fun _ _ _ hf => absurd (hpl.symm.trans hf) (by decide)⟩
          · exact ih _ _ _ _ hnd2 h dp hcase
        · rw [if_neg hpl] at h
          by_cases hpe : dep.producers_idx = []
          · rw [if_pos hpe] at h
            obtain ⟨hmono, hpres⟩ :=
              rename_pip_dep_fold_frame risc vliwS bundle_idx cridx rest _ _ _ _ h
            intro dp hdp
            rcases List.mem_cons.mp hdp with hcase | hcase
            · subst hcase
              have hpl' : dp.is_post_loop = false := by
                cases hb : dp.is_post_loop
                · rfl
                · exact absurd hb hpl
              have hentry : sdict_get dict' dp.reg_tag = some (some nonrot0) :=
                (hpres dp.reg_tag (by simpa using hnd1)).trans (sdict_get_set_self _ _ _)
              exact ⟨fun h1 => absurd h1 hinv,
                fun _ hc _ _ => absurd hc hli,
                fun _ hc _ _ => absurd hc hli,
                fun _ _ _ hp4 => absurd (hp4.symm.trans hpl') (by decide),
                fun _ _ _ _ => ⟨hpe, nonrot0, hentry, le_refl _, by omega⟩⟩
            · exact PipRewriteValue.mono_lo _ _ _ _ _ _ _ _ _
                (ih _ _ _ _ hnd2 h dp hcase) (by omega)
          · rw [if_neg hpe] at h
            exact absurd h (by simp)

/-- C4 data: a renamed producer in bundle 0 (name 5), a renamed body producer
in bundle 2 (name 7, stage 1), and a consumer in bundle 3 (stage 2) with one
dependency of each kind; II = 1, 4 stages, loop body = bundles [1, 5). -/
def c4_demo_risc : RiscProgram :=
  ⟨[⟨some 1, [], true, false, false, "mov x1, 0", some 5⟩,
    ⟨some 2, [], true, false, false, "t1", some 7⟩,
    ⟨some 3, [], true, false, false, "t2", none⟩], 0, 0⟩

/-- The VLIW state the C4 rewrite runs against. -/
def c4_demo_vliw : VliwProgram :=
  ⟨[], [(0, 0), (1, 2), (2, 3)], [], 4, 1, 1, 5⟩

/-- One dependency of each kind: loop-invariant on 0, local on 1, post-loop
on 1, and one with no producer. -/
def c4_demo_deps : List RegisterDependency :=
  [⟨"a", [0], false, false, true, false⟩,
   ⟨"b", [1], true, false, false, false⟩,
   ⟨"c", [1], false, false, false, true⟩,
   ⟨"d", [], false, false, false, false⟩]

/-- The C4 theorem at the demo data: the rewrite loop resolves the four
kinds to 5 (unchanged), 8 = 7 + (2 − 1), 10 = 7 + (4 − 1) and the fresh
dummy 42. -/
theorem c4_pip_operand_rewrite_witness :
    PipRewriteValue c4_demo_risc c4_demo_vliw 3 2
      [("d", some 42), ("c", some 10), ("b", some 8), ("a", some 5)]
      42 43 ⟨"a", [0], false, false, true, false⟩ ∧
    PipRewriteValue c4_demo_risc c4_demo_vliw 3 2
      [("d", some 42), ("c", some 10), ("b", some 8), ("a", some 5)]
      42 43 ⟨"b", [1], true, false, false, false⟩ ∧
    PipRewriteValue c4_demo_risc c4_demo_vliw 3 2
      [("d", some 42), ("c", some 10), ("b", some 8), ("a", some 5)]
      42 43 ⟨"c", [1], false, false, false, true⟩ ∧
    PipRewriteValue c4_demo_risc c4_demo_vliw 3 2
      [("d", some 42), ("c", some 10), ("b", some 8), ("a", some 5)]
      42 43 ⟨"d", [], false, false, false, false⟩ :=
  ⟨c4_pip_operand_rewrite c4_demo_risc c4_demo_vliw 3 2 c4_demo_deps [] 42
      [("d", some 42), ("c", some 10), ("b", some 8), ("a", some 5)] 43
      (by decide) rfl _ (by simp [c4_demo_deps]),
   c4_pip_operand_rewrite c4_demo_risc c4_demo_vliw 3 2 c4_demo_deps [] 42
      [("d", some 42), ("c", some 10), ("b", some 8), ("a", some 5)] 43
      (by decide) rfl _ (by simp [c4_demo_deps]),
   c4_pip_operand_rewrite c4_demo_risc c4_demo_vliw 3 2 c4_demo_deps [] 42
      [("d", some 42), ("c", some 10), ("b", some 8), ("a", some 5)] 43
      (by decide) rfl _ (by simp [c4_demo_deps]),
   c4_pip_operand_rewrite c4_demo_risc c4_demo_vliw 3 2 c4_demo_deps [] 42
      [("d", some 42), ("c", some 10), ("b", some 8), ("a", some 5)] 43
      (by decide) rfl _ (by simp [c4_demo_deps])⟩

/-- C4 counterexample to the claim's "every operand is rewritten": the text
rewriter itself raises on every operand occurrence (its `assert reg in
rename_dict` compares the int register against the str dependency tags, which
is always False), so a consumer text such as `add x1, x2, x3` is never
rewritten at all — only the rename dict of `c4_pip_operand_rewrite` ever
holds the claimed values. -/
theorem c4_operand_rewrite_crashes :
    string_representation_after_register_rename
      ⟨some 1, "add x1, x2, x3", some 0⟩ (some 5) = none := by
  rfl
